import Mathlib

/-!
# Mandelbrot viewer (`main.go`): embedding and verified properties

The definitions below transcribe the functions of `main.go` one by one.

Conventions of the embedding:

* Go `float64` is read in two ways.  The definitions without a suffix read it as
  exact rational arithmetic (`ℚ`): every operation the program performs on floats
  is `+ - * /` and comparison, so all definitions stay executable.  The
  definitions with the suffix `64` transcribe the same lines with the result of
  every operation rounded to IEEE-754 binary64 (`fl64`, round to nearest, ties to
  even), one rounding per operation as the Go compiler emits on amd64; they are
  used where the rounding decides what the code returns.  In both readings
  Lean's `x / 0 = 0` stands where IEEE arithmetic gives `±Inf`/`NaN`, and values
  beyond the largest finite double are not represented: the theorems either
  carry a non-zero divisor as a hypothesis or evaluate at inputs where every
  intermediate result is a finite double.
* Go `int` is `Int`; slices are `List`s with checked `Int` indexing, an index
  outside the slice is the run-time panic `Panic.indexOutOfRange`.
* `for` loops are well-founded recursions carrying the loop's own condition.
* The few functions of the `pixel`, `math` and `math/cmplx` libraries that the
  program calls are written out next to their callers.
-/

namespace Mandelbrot

/-! ## Numbers -/

/-- Go `float64`, read as exact rational arithmetic. -/
abbrev Float64 := ℚ

/-- Go `complex128`: a pair of `float64`. -/
structure Complex128 where
  re : Float64
  im : Float64
deriving DecidableEq, Repr

/-- Go `complex(re, im)`. -/
def complex (re im : Float64) : Complex128 := ⟨re, im⟩

/-- Addition of `complex128` values. -/
def Complex128.add (a b : Complex128) : Complex128 := ⟨a.re + b.re, a.im + b.im⟩

instance : Add Complex128 := ⟨Complex128.add⟩

/-- The call `cmplx.Pow(z, 2)`: the square of `z`.  The library returns `0` for
`z = 0` and otherwise works in polar form (modulus squared, phase doubled), which
in exact arithmetic is the product `z * z` written out here.  The float64 result
of the polar form can differ from the exact square in the last bits; the
theorems on `getPixelColorIndex` use the square only at `z = 0`. -/
def cmplxPow2 (z : Complex128) : Complex128 :=
  ⟨z.re * z.re - z.im * z.im, z.re * z.im + z.im * z.re⟩

/-- The test `cmplx.Abs(z) <= b`.  `cmplx.Abs z` is `sqrt (re² + im²)`; the
comparison with a bound `b` is stated on the squares, which keeps it rational.
This is the exact reading: the library rounds the square root, so the float64
test can differ when `|z|` is within rounding of `b`; the theorems on
`getPixelColorIndex` evaluate it only at `z = 0` and `z = 3`. -/
def cmplxAbsLe (z : Complex128) (b : Float64) : Bool :=
  decide (0 ≤ b ∧ z.re * z.re + z.im * z.im ≤ b * b)

/-- Go conversion `int(x)` of a float: the fraction is discarded (rounding
toward zero). -/
def goInt (x : Float64) : Int := if 0 ≤ x then ⌊x⌋ else ⌈x⌉

/-- Go conversion `uint8(x)` of a float: the fraction is discarded; the value is
then read in eight bits (values in `[0, 256)` are unchanged). -/
def uint8 (x : Float64) : Nat := (goInt x % 256).toNat

/-! ## Run-time panics, slices, loops -/

/-- The run-time panics the program can raise. -/
inductive Panic where
  | indexOutOfRange
  | makesliceLenOutOfRange
deriving DecidableEq, Repr

/-- Go `make([]T, n)`: a slice of `n` zero values; panics when `n < 0`. -/
def make {α : Type} (zero : α) (n : Int) : Except Panic (List α) :=
  if n < 0 then .error Panic.makesliceLenOutOfRange else .ok (List.replicate n.toNat zero)

/-- Go `s[i]` as a value: panics when `i` is outside `[0, len s)`. -/
def sliceGet {α : Type} (s : List α) (i : Int) : Except Panic α :=
  if 0 ≤ i ∧ i < s.length then
    match s[i.toNat]? with
    | some v => .ok v
    | none => .error Panic.indexOutOfRange
  else .error Panic.indexOutOfRange

/-- Go `s[i] = v`: panics when `i` is outside `[0, len s)`. -/
def sliceSet {α : Type} (s : List α) (i : Int) (v : α) : Except Panic (List α) :=
  if 0 ≤ i ∧ i < s.length then .ok (s.set i.toNat v) else .error Panic.indexOutOfRange

/-- The statement `for i := i₀; i < hi; i++ { body }` started at `i`, with the
variables the body updates threaded as `s`; a panic in the body ends the loop. -/
def forLoop {σ : Type} (hi : Int) (body : Int → σ → Except Panic σ) (i : Int) (s : σ) :
    Except Panic σ :=
  if i < hi then
    match body i s with
    | .ok s' => forLoop hi body (i + 1) s'
    | .error e => .error e
  else .ok s
termination_by (hi - i).toNat
decreasing_by omega

/-! ## Constants of `main.go` -/

/-- The iteration cap of the first render. -/
def minIterations : Int := 200

/-- Declared in `main.go`, not used by it. -/
def maxIterations : Int := 1000

/-- What every zoom adds to the iteration cap. -/
def increment : Int := 50

/-- Left bound of the initial logical region. -/
def minX : Float64 := -2.0

/-- Right bound of the initial logical region. -/
def maxX : Float64 := 1.25

/-- Lower bound of the initial logical region. -/
def minY : Float64 := -1.25

/-! ## `getPixelColorIndex` -/

/-- The loop of `getPixelColorIndex` (line 162), entered with the current
`previousZ` and `n`; it returns the final `n`. -/
def getPixelColorIndexLoop (value : Complex128) (maxIterations : Int)
    (previousZ : Complex128) (n : Int) : Int :=
  if n < maxIterations - 1 ∧ cmplxAbsLe previousZ 2 = true then
    getPixelColorIndexLoop value maxIterations (cmplxPow2 previousZ + value) (n + 1)
  else n
termination_by (maxIterations - 1 - n).toNat
decreasing_by omega

/-- The function `getPixelColorIndex(value, maxIterations)`, lines 158-169. -/
def getPixelColorIndex (value : Complex128) (maxIterations : Int) : Int :=
  getPixelColorIndexLoop value maxIterations (complex 0 0) 0

/-! ## `buildPalette` -/

/-- The type `color.RGBA`: four `uint8` channels. -/
structure RGBA where
  R : Nat
  G : Nat
  B : Nat
  A : Nat
deriving DecidableEq, Repr

/-- Body of the first loop of `buildPalette` (line 145), in the exact reading;
`buildPaletteRed64` is the binary64 reading. -/
def buildPaletteRed (size : Int) (i : Int) (palette : List RGBA) : Except Panic (List RGBA) :=
  sliceSet palette i ⟨uint8 ((i : Float64) / ((size : Float64) / 4) * 255), 0, 0, 255⟩

/-- Body of the second loop of `buildPalette` (line 150), in the exact reading,
with the decimal constant as an exact rational; `buildPaletteOrange64` is the
binary64 reading, in which the green channel can differ (99 against 98 at
index 124 of the 200-entry palette). -/
def buildPaletteOrange (size start : Int) (i : Int) (palette : List RGBA) :
    Except Panic (List RGBA) :=
  sliceSet palette i
    ⟨255,
     uint8 (((i : Float64) - (start : Float64)) / ((size : Float64) - (start : Float64) - 1.0)
       * 0.77647058823529411764705882352941 * 255),
     0, 255⟩

/-- The function `buildPalette(size)`, lines 141-156.  Integer division `size/4` truncates
toward zero, as in Go. -/
def buildPalette (size : Int) : Except Panic (List RGBA) := do
  let palette ← make (⟨0, 0, 0, 0⟩ : RGBA) size
  let palette ← forLoop (Int.tdiv size 4) (buildPaletteRed size) 0 palette
  let start := Int.tdiv size 4 - 1
  let palette ← forLoop (size - 1) (buildPaletteOrange size start) start palette
  let palette ← sliceSet palette (size - 1) ⟨0, 0, 0, 255⟩
  pure palette

/-- The palette formula as the specification words it (§4.3), for comparison
with `buildPalette`: `quarter = size / 4` by integer division, `start = quarter - 1`,
a red ramp `round(i / quarter * 255)` below `start`, an orange ramp
`round((i - start) / (size - start - 1) * 0.7764705882352941 * 255)` from `start`
to `size - 2`, and black at `size - 1`. -/
def specPaletteEntry (size i : Int) : RGBA :=
  let quarter := Int.tdiv size 4
  let start := quarter - 1
  if i = size - 1 then ⟨0, 0, 0, 255⟩
  else if start ≤ i then
    ⟨255,
     (round (((i : Float64) - (start : Float64)) / ((size : Float64) - (start : Float64) - 1)
       * 0.7764705882352941 * 255)).toNat,
     0, 255⟩
  else ⟨(round ((i : Float64) / (quarter : Float64) * 255)).toNat, 0, 0, 255⟩

/-! ## Rectangles and `adjustedRegionWithRatio` -/

/-- The type `pixel.Vec`. -/
structure Vec where
  X : Float64
  Y : Float64
deriving DecidableEq, Repr

/-- The type `pixel.Rect`. -/
structure Rect where
  Min : Vec
  Max : Vec
deriving DecidableEq, Repr

/-- The constructor `pixel.R(minX, minY, maxX, maxY)`; it does not reorder its
arguments. -/
def R (minX minY maxX maxY : Float64) : Rect := ⟨⟨minX, minY⟩, ⟨maxX, maxY⟩⟩

/-- The aspect-ratio correction of `adjustedRegionWithRatio`, lines 92-93 and
97-109: the selection `region` after the `if`/`else`.  Exact reading;
`correctedRegion64` is the binary64 reading. -/
def correctedRegion (region : Rect) (widthToHeightRatio : Float64) : Rect :=
  let regionWidth := region.Max.X - region.Min.X
  let regionHeight := region.Max.Y - region.Min.Y
  if regionWidth / regionHeight > widthToHeightRatio then
    let correctedHeight := regionWidth / widthToHeightRatio
    let heightIncrease := correctedHeight - regionHeight
    ⟨⟨region.Min.X, region.Min.Y - heightIncrease / 2⟩,
     ⟨region.Max.X, region.Max.Y + heightIncrease / 2⟩⟩
  else
    let correctedWidth := regionHeight * widthToHeightRatio
    let widthIncrease := correctedWidth - regionWidth
    ⟨⟨region.Min.X - widthIncrease / 2, region.Min.Y⟩,
     ⟨region.Max.X + widthIncrease / 2, region.Max.Y⟩⟩

/-- The function `adjustedRegionWithRatio(screen, region, widthToHeightRatio, logicalRegion)`,
lines 89-117.  Exact reading; `adjustedRegionWithRatio64` is the binary64
reading. -/
def adjustedRegionWithRatio (screen region : Rect) (widthToHeightRatio : Float64)
    (logicalRegion : Rect) : Rect :=
  let screenWidth := screen.Max.X - screen.Min.X
  let screenHeight := screen.Max.Y - screen.Min.Y
  let logicalWidth := logicalRegion.Max.X - logicalRegion.Min.X
  let logicalHeight := logicalRegion.Max.Y - logicalRegion.Min.Y
  let region := correctedRegion region widthToHeightRatio
  ⟨⟨logicalRegion.Min.X + region.Min.X / screenWidth * logicalWidth,
    logicalRegion.Min.Y + region.Min.Y / screenHeight * logicalHeight⟩,
   ⟨logicalRegion.Min.X + region.Max.X / screenWidth * logicalWidth,
    logicalRegion.Min.Y + region.Max.Y / screenHeight * logicalHeight⟩⟩

/-! ## `renderView` -/

/-- The type `pixel.PictureData`. -/
structure PictureData where
  Pix : List RGBA
  Stride : Int
  Rect : Rect
deriving DecidableEq, Repr

/-- The constructor `pixel.MakePictureData(rect)`: a picture of
`(⌈Max.X⌉ - ⌊Min.X⌋) * (⌈Max.Y⌉ - ⌊Min.Y⌋)` zero pixels. -/
def MakePictureData (rect : Rect) : Except Panic PictureData := do
  let w := goInt (⌈rect.Max.X⌉ : Float64) - goInt (⌊rect.Min.X⌋ : Float64)
  let h := goInt (⌈rect.Max.Y⌉ : Float64) - goInt (⌊rect.Min.Y⌋ : Float64)
  let pix ← make (⟨0, 0, 0, 0⟩ : RGBA) (w * h)
  pure ⟨pix, w, rect⟩

/-- Body of the inner loop of `renderView` (lines 131-134) for the pixel
`(x, y)`: the colour index is computed with the constant `minIterations`. -/
def renderViewPixel (region : Rect) (width dx dy : Float64) (palette : List RGBA)
    (y x : Int) (pix : List RGBA) : Except Panic (List RGBA) := do
  let c := complex (region.Min.X + (x : Float64) * dx) (region.Min.Y + (y : Float64) * dy)
  let ci := getPixelColorIndex c minIterations
  let colour ← sliceGet palette ci
  sliceSet pix (y * goInt width + x) colour

/-- The function `renderView(screen, region, maxIterations)`, lines 119-139. -/
def renderView (screen region : Rect) (maxIterations : Int) : Except Panic PictureData := do
  let pic ← MakePictureData screen
  let width := screen.Max.X
  let height := screen.Max.Y
  let palette ← buildPalette maxIterations
  let dx := (region.Max.X - region.Min.X) / width
  let dy := (region.Max.Y - region.Min.Y) / height
  let pix ← forLoop (goInt height)
    (fun y pix => forLoop (goInt width) (renderViewPixel region width dx dy palette y) 0 pix)
    0 pic.Pix
  pure { pic with Pix := pix }

/-! ## The event loop of `run` -/

/-- The type `State` with its two values `viewingState`, `selectingRegionState`. -/
inductive State where
  | viewing
  | selecting
deriving DecidableEq, Repr

/-- The variables of `run` that live across iterations of its event loop. -/
structure Session where
  state : State
  startPos : Vec
  region : Rect
  iterations : Int
  pic : PictureData
deriving DecidableEq, Repr

/-- The window bounds `cfg.Bounds` of `run` (line 35). -/
def cfgBounds : Rect := R 0 0 1280 984

/-- The value `screenRatio` as `run` computes it (lines 44-46) from the window bounds. -/
def screenRatio (bounds : Rect) : Float64 :=
  let windowWidth := bounds.Max.X - bounds.Min.X
  let windowHeight := bounds.Max.Y - bounds.Min.Y
  windowWidth / windowHeight

/-- The initial logical region of `run` (lines 48-49). -/
def initialRegion (bounds : Rect) : Rect :=
  let maxY := (maxX - minX) * bounds.Max.Y / bounds.Max.X + minY
  R minX minY maxX maxY

/-- Start of `run` (lines 44-58): the first render and the initial variables. -/
def runInit (bounds : Rect) : Except Panic Session := do
  let region := initialRegion bounds
  let iterations := minIterations
  let pic ← renderView bounds region iterations
  pure ⟨State.viewing, ⟨0, 0⟩, region, iterations, pic⟩

/-- One iteration of the event loop of `run` (lines 59-86).  The inputs are what
the window reports in that frame: `pressed` for `win.Pressed(MouseButtonLeft)`,
`justReleased` for `win.JustReleased(MouseButtonLeft)` and `mouse` for
`win.MousePosition()`.  Drawing calls do not change the variables. -/
def runStep (bounds : Rect) (pressed justReleased : Bool) (mouse : Vec) (s : Session) :
    Except Panic Session := do
  let s :=
    if pressed = true ∧ s.state = State.viewing then
      { s with startPos := mouse, state := State.selecting }
    else s
  if justReleased = true ∧ s.state = State.selecting then
    let endPos := mouse
    let region := adjustedRegionWithRatio bounds
      (R (min s.startPos.X endPos.X) (min s.startPos.Y endPos.Y)
         (max endPos.X s.startPos.X) (max endPos.Y s.startPos.Y))
      (screenRatio bounds) s.region
    let iterations := s.iterations + increment
    let pic ← renderView bounds region iterations
    pure { s with region := region, iterations := iterations, pic := pic,
                  state := State.viewing }
  else pure s

/-! ## The binary64 reading -/

/-- Rounding of a rational to the nearest integer, ties to the even one. -/
def roundHalfEven (x : ℚ) : Int :=
  if x - ⌊x⌋ < 1 / 2 then ⌊x⌋
  else if 1 / 2 < x - ⌊x⌋ then ⌊x⌋ + 1
  else if ⌊x⌋ % 2 = 0 then ⌊x⌋ else ⌊x⌋ + 1

/-- Rounding of a rational to IEEE-754 binary64, round to nearest, ties to even:
with `2^e ≤ |q| < 2^(e+1)` (and `e` at least `-1022`, which gives the subnormal
grid below `2^-1022`) the result is the nearest multiple of `2^(e-52)`.
Magnitudes that round to `2^1024` or more, which IEEE replaces by `±Inf`, are
outside the range this function is used on. -/
def fl64 (q : ℚ) : ℚ :=
  if q = 0 then 0
  else
    let e := max (Int.log 2 |q|) (-1022)
    (roundHalfEven (q / 2 ^ (e - 52)) : ℚ) * 2 ^ (e - 52)

/-- The binary64 difference `a - b`. -/
def sub64 (a b : Float64) : Float64 := fl64 (a - b)

/-- The binary64 product `a * b`. -/
def mul64 (a b : Float64) : Float64 := fl64 (a * b)

/-- The binary64 quotient `a / b`, for `b ≠ 0`. -/
def div64 (a b : Float64) : Float64 := fl64 (a / b)

/-- The constant `0.77647058823529411764705882352941` of line 150 as the double
the compiler converts it to. -/
def orangeFactor64 : Float64 := fl64 0.77647058823529411764705882352941

/-- Body of the first loop of `buildPalette` (line 145) in binary64:
`float64(i) / (float64(size) / 4) * 255`, converted with `uint8`. -/
def buildPaletteRed64 (size : Int) (i : Int) (palette : List RGBA) : Except Panic (List RGBA) :=
  sliceSet palette i
    ⟨uint8 (mul64 (div64 (fl64 (i : ℚ)) (div64 (fl64 (size : ℚ)) 4)) 255), 0, 0, 255⟩

/-- Body of the second loop of `buildPalette` (line 150) in binary64, evaluated
left to right as Go does:
`(float64(i) - float64(start)) / (float64(size) - float64(start) - 1.0) * c * 255`. -/
def buildPaletteOrange64 (size start : Int) (i : Int) (palette : List RGBA) :
    Except Panic (List RGBA) :=
  sliceSet palette i
    ⟨255,
     uint8 (mul64
       (mul64
         (div64 (sub64 (fl64 (i : ℚ)) (fl64 (start : ℚ)))
           (sub64 (sub64 (fl64 (size : ℚ)) (fl64 (start : ℚ))) 1.0))
         orangeFactor64)
       255),
     0, 255⟩

/-- The function `buildPalette(size)`, lines 141-156, with the channel arithmetic
in binary64; loops, indices and panics as in `buildPalette`. -/
def buildPalette64 (size : Int) : Except Panic (List RGBA) := do
  let palette ← make (⟨0, 0, 0, 0⟩ : RGBA) size
  let palette ← forLoop (Int.tdiv size 4) (buildPaletteRed64 size) 0 palette
  let start := Int.tdiv size 4 - 1
  let palette ← forLoop (size - 1) (buildPaletteOrange64 size start) start palette
  let palette ← sliceSet palette (size - 1) ⟨0, 0, 0, 255⟩
  pure palette

/-! ## The escape-time evaluator -/

/-- One unfolding of the loop of `getPixelColorIndex` when its condition holds. -/
theorem getPixelColorIndexLoop_continue (value : Complex128) (maxIterations : Int)
    (previousZ : Complex128) (n : Int) (hn : n < maxIterations - 1)
    (hz : cmplxAbsLe previousZ 2 = true) :
    getPixelColorIndexLoop value maxIterations previousZ n =
      getPixelColorIndexLoop value maxIterations (cmplxPow2 previousZ + value) (n + 1) := by
  rw [getPixelColorIndexLoop, if_pos ⟨hn, hz⟩]

/-- The loop of `getPixelColorIndex` stops at once when its condition fails. -/
theorem getPixelColorIndexLoop_stop (value : Complex128) (maxIterations : Int)
    (previousZ : Complex128) (n : Int)
    (h : ¬ (n < maxIterations - 1 ∧ cmplxAbsLe previousZ 2 = true)) :
    getPixelColorIndexLoop value maxIterations previousZ n = n := by
  rw [getPixelColorIndexLoop, if_neg h]

/-- Entered with `n ≤ maxIterations - 1`, the loop returns a value between `n`
and `maxIterations - 1`. -/
theorem getPixelColorIndexLoop_bounds (value : Complex128) (maxIterations : Int)
    (previousZ : Complex128) (n : Int) (h : n ≤ maxIterations - 1) :
    n ≤ getPixelColorIndexLoop value maxIterations previousZ n ∧
      getPixelColorIndexLoop value maxIterations previousZ n ≤ maxIterations - 1 := by
  induction previousZ, n using getPixelColorIndexLoop.induct value maxIterations with
  | case1 z n hc ih =>
    rw [getPixelColorIndexLoop_continue value maxIterations z n hc.1 hc.2]
    have := ih (by omega)
    omega
  | case2 z n hc =>
    rw [getPixelColorIndexLoop_stop value maxIterations z n hc]
    omega

/-- The origin is within magnitude 2. -/
theorem cmplxAbsLe_origin : cmplxAbsLe (complex 0 0) 2 = true := by
  simp [cmplxAbsLe, complex]

/-- The orbit of the origin stays at the origin. -/
theorem cmplxPow2_origin : cmplxPow2 (complex 0 0) + complex 0 0 = complex 0 0 := by
  show Complex128.add _ _ = _
  simp [cmplxPow2, complex, Complex128.add]

/-- With `value = 0` and `previousZ = 0` the loop runs until `n = maxIterations - 1`. -/
theorem getPixelColorIndexLoop_origin (maxIterations : Int) (n : Int)
    (h : n ≤ maxIterations - 1) :
    getPixelColorIndexLoop (complex 0 0) maxIterations (complex 0 0) n = maxIterations - 1 := by
  generalize hk : (maxIterations - 1 - n).toNat = k
  induction k generalizing n with
  | zero =>
    rw [getPixelColorIndexLoop_stop _ _ _ _ (by omega)]
    omega
  | succ k ih =>
    rw [getPixelColorIndexLoop_continue _ _ _ _ (by omega) cmplxAbsLe_origin, cmplxPow2_origin]
    exact ih (n + 1) (by omega) (by omega)

/-- The origin never escapes: `getPixelColorIndex(0, N) = N - 1` for `N ≥ 1`. -/
theorem getPixelColorIndex_origin (maxIterations : Int) (h : 1 ≤ maxIterations) :
    getPixelColorIndex (complex 0 0) maxIterations = maxIterations - 1 :=
  getPixelColorIndexLoop_origin maxIterations 0 (by omega)

/-- C1: for every complex number `c` and every iteration cap `N ≥ 1`,
`getPixelColorIndex(c, N)` returns an integer `n` with `0 ≤ n ≤ N - 1`. -/
theorem getPixelColorIndex_range (c : Complex128) (N : Int) (hN : 1 ≤ N) :
    0 ≤ getPixelColorIndex c N ∧ getPixelColorIndex c N ≤ N - 1 :=
  getPixelColorIndexLoop_bounds c N (complex 0 0) 0 (by omega)

/-- Instance of C1 at `c = 3 + 0i`, `N = 5`. -/
theorem getPixelColorIndex_range_witness :
    (1 : Int) ≤ 5 ∧ 0 ≤ getPixelColorIndex (complex 3 0) 5 ∧
      getPixelColorIndex (complex 3 0) 5 ≤ 5 - 1 :=
  ⟨by decide, getPixelColorIndex_range (complex 3 0) 5 (by decide)⟩

/-- C2: for every iteration cap `N ≥ 1`, `getPixelColorIndex(0+0i, N) = N - 1`:
the origin never escapes, so the evaluator runs to the cap. -/
theorem getPixelColorIndex_zero (N : Int) (hN : 1 ≤ N) :
    getPixelColorIndex (complex 0 0) N = N - 1 :=
  getPixelColorIndexLoop_origin N 0 (by omega)

/-- Instance of C2 at `N = 200`, the cap the program starts with. -/
theorem getPixelColorIndex_zero_witness :
    (1 : Int) ≤ 200 ∧ getPixelColorIndex (complex 0 0) 200 = 200 - 1 :=
  ⟨by decide, getPixelColorIndex_zero 200 (by decide)⟩

/-- C3: for every iteration cap `N ≥ 2`, `getPixelColorIndex(3+0i, N) = 1`: the
orbit's magnitude exceeds 2 after one iteration. -/
theorem getPixelColorIndex_three (N : Int) (hN : 2 ≤ N) :
    getPixelColorIndex (complex 3 0) N = 1 := by
  unfold getPixelColorIndex
  rw [getPixelColorIndexLoop_continue _ _ _ _ (by omega) cmplxAbsLe_origin]
  have hz : cmplxPow2 (complex 0 0) + complex 3 0 = complex 3 0 := by
    show Complex128.add _ _ = _
    simp [cmplxPow2, complex, Complex128.add]
  rw [hz, getPixelColorIndexLoop_stop]
  · norm_num
  · intro hc
    have h3 : cmplxAbsLe (complex 3 0) 2 = false := by
      simp [cmplxAbsLe, complex]
      norm_num
    rw [h3] at hc
    exact Bool.noConfusion hc.2

/-- Instance of C3 at `N = 2`, the smallest cap it covers. -/
theorem getPixelColorIndex_three_witness :
    (2 : Int) ≤ 2 ∧ getPixelColorIndex (complex 3 0) 2 = 1 :=
  ⟨by decide, getPixelColorIndex_three 2 (by decide)⟩

/-! ## The region adjuster -/

/-- C4: for every normalized selection rectangle with positive width and positive
height and every target ratio `r > 0`, the rectangle that `adjustedRegionWithRatio`
obtains from its aspect-ratio correction step has width / height equal to `r`. -/
theorem correctedRegion_ratio (region : Rect) (r : Float64)
    (hw : 0 < region.Max.X - region.Min.X) (hh : 0 < region.Max.Y - region.Min.Y)
    (hr : 0 < r) :
    ((correctedRegion region r).Max.X - (correctedRegion region r).Min.X) /
      ((correctedRegion region r).Max.Y - (correctedRegion region r).Min.Y) = r := by
  unfold correctedRegion
  by_cases hc : (region.Max.X - region.Min.X) / (region.Max.Y - region.Min.Y) > r
  · simp only [hc, if_true]
    have hne : region.Max.X - region.Min.X ≠ 0 := ne_of_gt hw
    have hr0 : r ≠ 0 := ne_of_gt hr
    have hden : region.Max.Y + ((region.Max.X - region.Min.X) / r -
        (region.Max.Y - region.Min.Y)) / 2 - (region.Min.Y - ((region.Max.X - region.Min.X) / r -
        (region.Max.Y - region.Min.Y)) / 2) = (region.Max.X - region.Min.X) / r := by ring
    rw [hden]
    field_simp
  · simp only [hc, if_false]
    have hne : region.Max.Y - region.Min.Y ≠ 0 := ne_of_gt hh
    have hnum : region.Max.X + ((region.Max.Y - region.Min.Y) * r -
        (region.Max.X - region.Min.X)) / 2 - (region.Min.X - ((region.Max.Y - region.Min.Y) * r -
        (region.Max.X - region.Min.X)) / 2) = (region.Max.Y - region.Min.Y) * r := by ring
    rw [hnum]
    field_simp

/-- Instance of C4: the selection (100,100)-(300,250) with the ratio 1280/984. -/
theorem correctedRegion_ratio_witness :
    0 < (R 100 100 300 250).Max.X - (R 100 100 300 250).Min.X ∧
    0 < (R 100 100 300 250).Max.Y - (R 100 100 300 250).Min.Y ∧
    (0 : Float64) < 1280 / 984 ∧
    ((correctedRegion (R 100 100 300 250) (1280 / 984)).Max.X -
        (correctedRegion (R 100 100 300 250) (1280 / 984)).Min.X) /
      ((correctedRegion (R 100 100 300 250) (1280 / 984)).Max.Y -
        (correctedRegion (R 100 100 300 250) (1280 / 984)).Min.Y) = 1280 / 984 :=
  ⟨by norm_num [R], by norm_num [R], by norm_num,
    correctedRegion_ratio (R 100 100 300 250) (1280 / 984)
      (by norm_num [R]) (by norm_num [R]) (by norm_num)⟩

/-- Reading a slice inside its bounds returns the element there. -/
theorem sliceGet_of_lt {α : Type} (s : List α) (i : Int) (h0 : 0 ≤ i) (h1 : i.toNat < s.length) :
    sliceGet s i = .ok (s.get ⟨i.toNat, h1⟩) := by
  have hi : i < (s.length : Int) := by omega
  simp [sliceGet, h0, hi, List.getElem?_eq_getElem h1]

/-- Reading a slice outside its bounds panics. -/
theorem sliceGet_out {α : Type} (s : List α) (i : Int) (h : ¬ (0 ≤ i ∧ i < s.length)) :
    sliceGet s i = .error Panic.indexOutOfRange := by
  simp only [sliceGet, if_neg h]

/-- Reading a slice after one write inside its bounds. -/
theorem sliceGet_set {α : Type} (s : List α) (i j : Int) (v : α)
    (h0 : 0 ≤ i) (h1 : i < s.length) :
    sliceGet (s.set i.toNat v) j = if j = i then .ok v else sliceGet s j := by
  by_cases hj : 0 ≤ j ∧ j < (s.length : Int)
  · have hjn : j.toNat < s.length := by omega
    by_cases hji : j = i
    · subst hji
      rw [if_pos rfl, sliceGet_of_lt _ _ hj.1 (by simpa using hjn)]
      simp
    · rw [if_neg hji, sliceGet_of_lt _ _ hj.1 (by simpa using hjn), sliceGet_of_lt _ _ hj.1 hjn]
      have : i.toNat ≠ j.toNat := by omega
      simp [List.getElem_set_ne this]
  · have hji : j ≠ i := by
      rintro rfl
      exact hj ⟨h0, h1⟩
    rw [if_neg hji, sliceGet_out _ _ hj, sliceGet_out]
    simpa using hj

/-- One pass of a `for` loop whose condition holds and whose body succeeds. -/
theorem forLoop_step {σ : Type} (hi : Int) (body : Int → σ → Except Panic σ) (i : Int)
    (s s' : σ) (h : i < hi) (hb : body i s = .ok s') :
    forLoop hi body i s = forLoop hi body (i + 1) s' := by
  rw [forLoop, if_pos h, hb]

/-- A `for` loop whose condition holds and whose body panics, panics. -/
theorem forLoop_panic {σ : Type} (hi : Int) (body : Int → σ → Except Panic σ) (i : Int)
    (s : σ) (e : Panic) (h : i < hi) (hb : body i s = .error e) :
    forLoop hi body i s = .error e := by
  rw [forLoop, if_pos h, hb]

/-- A `for` loop whose condition fails leaves the variables as they are. -/
theorem forLoop_done {σ : Type} (hi : Int) (body : Int → σ → Except Panic σ) (i : Int)
    (s : σ) (h : ¬ i < hi) :
    forLoop hi body i s = .ok s := by
  rw [forLoop, if_neg h]

/-- Loop rule: an invariant `Inv i s` that every pass with `lo ≤ i < hi` carries
from `i` to `i + 1` without a panic holds at the end of the loop, which then
returns. -/
theorem forLoop_invariant {σ : Type} (hi : Int) (body : Int → σ → Except Panic σ)
    (Inv : Int → σ → Prop) (lo : Int)
    (hbody : ∀ i s, lo ≤ i → i < hi → Inv i s → ∃ s', body i s = .ok s' ∧ Inv (i + 1) s')
    (i : Int) (s : σ) (hlo : lo ≤ i) (hinv : Inv i s) :
    ∃ s', forLoop hi body i s = .ok s' ∧ Inv (max i hi) s' := by
  generalize hk : (hi - i).toNat = k
  induction k generalizing i s with
  | zero =>
    refine ⟨s, forLoop_done hi body i s (by omega), ?_⟩
    rw [max_eq_left (by omega)]
    exact hinv
  | succ k ih =>
    have hlt : i < hi := by omega
    obtain ⟨s1, hb, hinv1⟩ := hbody i s hlo hlt hinv
    obtain ⟨s', hs', hinv'⟩ := ih (i + 1) s1 (by omega) hinv1 (by omega)
    refine ⟨s', ?_, ?_⟩
    · rw [forLoop_step hi body i s s1 hlt hb, hs']
    · rw [max_eq_right (by omega)] at hinv' ⊢
      exact hinv'

/-- A loop that writes `f i` at every index `i` from `lo` up to `hi - 1`, all
inside the slice, returns the slice with exactly those entries replaced. -/
theorem forLoop_sliceSet {α : Type} (f : Int → α) (hi lo : Int) (p : List α)
    (hlo : 0 ≤ lo) (hhi : hi ≤ p.length) :
    ∃ p', forLoop hi (fun i q => sliceSet q i (f i)) lo p = .ok p' ∧
      p'.length = p.length ∧
      ∀ j : Int, sliceGet p' j = if lo ≤ j ∧ j < hi then .ok (f j) else sliceGet p j := by
  have h := forLoop_invariant hi (fun i q => sliceSet q i (f i))
    (fun i q => q.length = p.length ∧
      ∀ j : Int, sliceGet q j = if lo ≤ j ∧ j < i then .ok (f j) else sliceGet p j) lo
    (by
      intro i q hi1 hi2 ⟨hlen, hq⟩
      have hin : 0 ≤ i ∧ i < (q.length : Int) := by omega
      refine ⟨q.set i.toNat (f i), by simp only [sliceSet, if_pos hin], by simp [hlen], ?_⟩
      intro j
      rw [sliceGet_set q i j (f i) hin.1 hin.2, hq j]
      by_cases hji : j = i
      · subst hji
        rw [if_pos rfl, if_pos ⟨hi1, by omega⟩]
      · rw [if_neg hji]
        by_cases hc : lo ≤ j ∧ j < i
        · rw [if_pos hc, if_pos ⟨hc.1, by omega⟩]
        · rw [if_neg hc, if_neg (by omega)])
    lo p (le_refl lo) ⟨rfl, fun j => by rw [if_neg (by omega)]⟩
  obtain ⟨p', hp', hlen, hget⟩ := h
  refine ⟨p', hp', hlen, ?_⟩
  intro j
  rw [hget j]
  by_cases hc : lo ≤ j ∧ j < hi
  · rw [if_pos hc, if_pos ⟨hc.1, by omega⟩]
  · rw [if_neg hc]
    by_cases hc2 : lo ≤ j ∧ j < max lo hi
    · have : ¬ (0 ≤ j ∧ j < (p.length : Int)) := by omega
      exfalso; omega
    · rw [if_neg hc2]

/-! ## The palette -/

/-- For a non-negative size, Go's truncating `size/4` is the floor division. -/
theorem tdiv_four (size : Int) (h : 0 ≤ size) : Int.tdiv size 4 = size / 4 :=
  Int.tdiv_eq_ediv h (by decide)

/-- For `size ≥ 4`, `buildPalette` returns a palette of `size` colours: the red
ramp of line 145 below index `size/4 - 1`, the orange ramp of line 150 from
there to `size - 2`, and black at `size - 1`. -/
theorem buildPalette_entries (size : Int) (h : 4 ≤ size) :
    ∃ p, buildPalette size = .ok p ∧ (p.length : Int) = size ∧
      (∀ j : Int, 0 ≤ j → j < Int.tdiv size 4 - 1 →
        sliceGet p j = .ok ⟨uint8 ((j : Float64) / ((size : Float64) / 4) * 255), 0, 0, 255⟩) ∧
      (∀ j : Int, Int.tdiv size 4 - 1 ≤ j → j < size - 1 →
        sliceGet p j = .ok ⟨255,
          uint8 (((j : Float64) - ((Int.tdiv size 4 - 1 : Int) : Float64)) /
            ((size : Float64) - ((Int.tdiv size 4 - 1 : Int) : Float64) - 1.0)
            * 0.77647058823529411764705882352941 * 255), 0, 255⟩) ∧
      sliceGet p (size - 1) = .ok ⟨0, 0, 0, 255⟩ := by
  have hq := tdiv_four size (by omega)
  have hq1 : 1 ≤ size / 4 := by omega
  have hq2 : size / 4 ≤ size := by omega
  -- the zeroed slice
  have hmake : make (⟨0, 0, 0, 0⟩ : RGBA) size = .ok (List.replicate size.toNat ⟨0, 0, 0, 0⟩) := by
    simp only [make, if_neg (show ¬ size < 0 by omega)]
  have hlen0 : ((List.replicate size.toNat (⟨0, 0, 0, 0⟩ : RGBA)).length : Int) = size := by
    simp only [List.length_replicate]
    omega
  -- first loop
  obtain ⟨p1, hp1, hlen1, hget1⟩ := forLoop_sliceSet
    (fun i : Int => (⟨uint8 ((i : Float64) / ((size : Float64) / 4) * 255), 0, 0, 255⟩ : RGBA))
    (Int.tdiv size 4) 0 (List.replicate size.toNat ⟨0, 0, 0, 0⟩) (le_refl 0) (by omega)
  -- second loop
  obtain ⟨p2, hp2, hlen2, hget2⟩ := forLoop_sliceSet
    (fun i : Int => (⟨255,
          uint8 (((i : Float64) - ((Int.tdiv size 4 - 1 : Int) : Float64)) /
            ((size : Float64) - ((Int.tdiv size 4 - 1 : Int) : Float64) - 1.0)
            * 0.77647058823529411764705882352941 * 255), 0, 255⟩ : RGBA))
    (size - 1) (Int.tdiv size 4 - 1) p1 (by omega) (by omega)
  have hlast : 0 ≤ size - 1 ∧ size - 1 < (p2.length : Int) := by omega
  refine ⟨p2.set (size - 1).toNat ⟨0, 0, 0, 255⟩, ?_, ?_, ?_, ?_, ?_⟩
  · have e1 : buildPaletteRed size = fun i q => sliceSet q i
        (⟨uint8 ((i : Float64) / ((size : Float64) / 4) * 255), 0, 0, 255⟩ : RGBA) := rfl
    have e2 : buildPaletteOrange size (Int.tdiv size 4 - 1) = fun i q => sliceSet q i
        (⟨255,
          uint8 (((i : Float64) - ((Int.tdiv size 4 - 1 : Int) : Float64)) /
            ((size : Float64) - ((Int.tdiv size 4 - 1 : Int) : Float64) - 1.0)
            * 0.77647058823529411764705882352941 * 255), 0, 255⟩ : RGBA) := rfl
    simp only [buildPalette, hmake, e1, e2, hp1, hp2, bind, Except.bind, pure, Except.pure]
    simp only [sliceSet, if_pos hlast]
  · simp only [List.length_set]
    omega
  · intro j hj0 hj1
    rw [sliceGet_set p2 (size - 1) j _ hlast.1 hlast.2, if_neg (by omega), hget2 j,
      if_neg (by omega), hget1 j, if_pos ⟨hj0, by omega⟩]
  · intro j hj0 hj1
    rw [sliceGet_set p2 (size - 1) j _ hlast.1 hlast.2, if_neg (by omega), hget2 j,
      if_pos ⟨hj0, hj1⟩]
  · rw [sliceGet_set p2 (size - 1) (size - 1) _ hlast.1 hlast.2, if_pos rfl]

/-- The conversion `int(x)` of a non-negative float is its floor. -/
theorem goInt_of_nonneg (x : Float64) (h : 0 ≤ x) : goInt x = ⌊x⌋ := by
  simp only [goInt, if_pos h]

/-- A `uint8` is below 256. -/
theorem uint8_lt (x : Float64) : uint8 x < 256 := by
  unfold uint8
  omega

/-- On `[0, 256)` the conversion `uint8` is the floor. -/
theorem uint8_of_range (x : Float64) (h0 : 0 ≤ x) (h1 : x < 256) : (uint8 x : Int) = ⌊x⌋ := by
  have hf0 : 0 ≤ ⌊x⌋ := Int.floor_nonneg.mpr h0
  have hf1 : ⌊x⌋ < 256 := Int.floor_lt.mpr (by exact_mod_cast h1)
  unfold uint8
  rw [goInt_of_nonneg x h0]
  omega

/-- On `[0, 256)` the conversion `uint8` is monotone. -/
theorem uint8_mono (x y : Float64) (h0 : 0 ≤ x) (hxy : x ≤ y) (h1 : y < 256) :
    uint8 x ≤ uint8 y := by
  have hx := uint8_of_range x h0 (lt_of_le_of_lt hxy h1)
  have hy := uint8_of_range y (le_trans h0 hxy) h1
  have := Int.floor_mono hxy
  omega

/-- For `size < 4`, `buildPalette` panics. -/
theorem buildPalette_small (size : Int) (h : size < 4) : ∃ e, buildPalette size = .error e := by
  by_cases hneg : size < 0
  · refine ⟨Panic.makesliceLenOutOfRange, ?_⟩
    simp only [buildPalette, make, if_pos hneg, bind, Except.bind]
  · have hq : Int.tdiv size 4 = 0 := by
      rw [tdiv_four size (by omega)]
      omega
    have hmake : make (⟨0, 0, 0, 0⟩ : RGBA) size = .ok (List.replicate size.toNat ⟨0, 0, 0, 0⟩) := by
      simp only [make, if_neg hneg]
    refine ⟨Panic.indexOutOfRange, ?_⟩
    simp only [buildPalette, hmake, hq, bind, Except.bind]
    rw [forLoop_done 0 _ 0 _ (by omega)]
    simp only []
    by_cases h0 : size = 0
    · subst h0
      rw [forLoop_done _ _ _ _ (by omega)]
      simp [sliceSet]
    · rw [forLoop_panic _ _ _ _ Panic.indexOutOfRange (by omega)]
      simp [buildPaletteOrange, sliceSet]

/-- C8: for every palette size `S ≥ 4`, the last entry of `buildPalette(S)`, at
index `S - 1`, is pure black `(0,0,0,255)`. -/
theorem buildPalette_last_black (S : Int) (hS : 4 ≤ S) :
    ∃ p, buildPalette S = .ok p ∧ (p.length : Int) = S ∧
      sliceGet p (S - 1) = .ok ⟨0, 0, 0, 255⟩ := by
  obtain ⟨p, hp, hlen, -, -, hlast⟩ := buildPalette_entries S hS
  exact ⟨p, hp, hlen, hlast⟩

/-- Instance of C8 at `S = 200`, the palette of the first render. -/
theorem buildPalette_last_black_witness :
    (4 : Int) ≤ 200 ∧ ∃ p, buildPalette 200 = .ok p ∧ (p.length : Int) = 200 ∧
      sliceGet p (200 - 1) = .ok ⟨0, 0, 0, 255⟩ :=
  ⟨by decide, buildPalette_last_black 200 (by decide)⟩

/-- C9: `buildPalette(size)` fails exactly when `size < 4`: for every `size < 4`
it ends in a panic instead of returning a palette, and for every `size ≥ 4` no
write leaves the slice and it returns a palette of exactly `size` colours. -/
theorem buildPalette_fails_iff (size : Int) :
    ((∃ e, buildPalette size = .error e) ↔ size < 4) ∧
    ((∃ p, buildPalette size = .ok p ∧ (p.length : Int) = size) ↔ 4 ≤ size) := by
  constructor
  · constructor
    · rintro ⟨e, he⟩
      by_contra hge
      obtain ⟨p, hp, -⟩ := buildPalette_entries size (by omega)
      rw [hp] at he
      exact Except.noConfusion he
    · exact buildPalette_small size
  · constructor
    · rintro ⟨p, hp, -⟩
      by_contra hlt
      obtain ⟨e, he⟩ := buildPalette_small size (by omega)
      rw [he] at hp
      exact Except.noConfusion hp
    · intro hge
      obtain ⟨p, hp, hlen, -⟩ := buildPalette_entries size hge
      exact ⟨p, hp, hlen⟩

/-- C10: for every palette size `S ≥ 4` and all indices `i ≤ j` with `0 ≤ i` and
`j < S/4` (integer division), the red channel of `buildPalette(S)[i]` is at most
the red channel of `buildPalette(S)[j]`. -/
theorem buildPalette_red_monotone (S i j : Int) (hS : 4 ≤ S) (h0 : 0 ≤ i) (hij : i ≤ j)
    (hj : j < Int.tdiv S 4) :
    ∃ p ci cj, buildPalette S = .ok p ∧ sliceGet p i = .ok ci ∧ sliceGet p j = .ok cj ∧
      ci.R ≤ cj.R := by
  obtain ⟨p, hp, hlen, hred, horange, -⟩ := buildPalette_entries S hS
  have hq := tdiv_four S (by omega)
  have hq2 : 4 * (S / 4) ≤ S := by omega
  by_cases hjs : j < Int.tdiv S 4 - 1
  · refine ⟨p, _, _, hp, hred i h0 (by omega), hred j (by omega) hjs, ?_⟩
    have hSq : (0 : Float64) < (S : Float64) / 4 := by
      have : (0 : Float64) < (S : Float64) := by exact_mod_cast (show (0 : Int) < S by omega)
      positivity
    have hjq : (j : Float64) < (S : Float64) / 4 := by
      have h1 : (4 : Float64) * (j : Float64) < (S : Float64) := by
        exact_mod_cast (show 4 * j < S by omega)
      linarith
    have hi0 : (0 : Float64) ≤ (i : Float64) := by exact_mod_cast h0
    have hijq : (i : Float64) ≤ (j : Float64) := by exact_mod_cast hij
    apply uint8_mono
    · positivity
    · have := div_le_div_of_nonneg_right hijq (le_of_lt hSq)
      nlinarith
    · have : (j : Float64) / ((S : Float64) / 4) < 1 := (div_lt_one hSq).mpr hjq
      nlinarith
  · have hjeq : Int.tdiv S 4 - 1 ≤ j := by omega
    by_cases his : i < Int.tdiv S 4 - 1
    · refine ⟨p, _, _, hp, hred i h0 his, horange j hjeq (by omega), ?_⟩
      have := uint8_lt ((i : Float64) / ((S : Float64) / 4) * 255)
      show uint8 ((i : Float64) / ((S : Float64) / 4) * 255) ≤ 255
      omega
    · exact ⟨p, _, _, hp, horange i (by omega) (by omega), horange j hjeq (by omega), le_refl _⟩

/-- Instance of C10: size 200, indices 10 and 40 of the first quarter. -/
theorem buildPalette_red_monotone_witness :
    (4 : Int) ≤ 200 ∧ (0 : Int) ≤ 10 ∧ (10 : Int) ≤ 40 ∧ (40 : Int) < Int.tdiv 200 4 ∧
    ∃ p ci cj, buildPalette 200 = .ok p ∧ sliceGet p 10 = .ok ci ∧ sliceGet p 40 = .ok cj ∧
      ci.R ≤ cj.R :=
  ⟨by decide, by decide, by decide, by decide,
    buildPalette_red_monotone 200 10 40 (by decide) (by decide) (by decide) (by decide)⟩

/-! ## Rendering -/

/-- Row-major indices are below the buffer size: `y * W + x < H * W` for a pixel
`(x, y)` of a `W × H` grid. -/
theorem rowMajor_lt (W H x y : Int) (hx : x < W) (hy0 : 0 ≤ y) (hy : y < H)
    (hx0 : 0 ≤ x) : 0 ≤ y * W + x ∧ y * W + x < H * W := by
  have hW : 0 ≤ W := by omega
  have h1 : (y + 1) * W ≤ H * W := Int.mul_le_mul_of_nonneg_right (by omega) hW
  have h2 : 0 ≤ y * W := Int.mul_nonneg hy0 hW
  have h3 : (y + 1) * W = y * W + W := by ring
  omega

/-- Row-major indices of a pixel in an earlier row are smaller than those of a
later row. -/
theorem rowMajor_row_lt (W x x' y y' : Int) (hx0 : 0 ≤ x) (hx'0 : 0 ≤ x') (hx' : x' < W)
    (hy : y' < y) : y' * W + x' < y * W + x := by
  have h1 : (y' + 1) * W ≤ y * W := Int.mul_le_mul_of_nonneg_right (by omega) (by omega)
  have h3 : (y' + 1) * W = y' * W + W := by ring
  omega

/-- Two nested loops that write `f y x` at index `y * W + x` for every pixel of
a `W × H` grid, into a slice of at least `H * W` entries, return without a panic
and leave `f y x` at each of these indices. -/
theorem forLoop_fill {α : Type} (W H : Int) (f : Int → Int → α) (p : List α)
    (hlen : H * W ≤ p.length) :
    ∃ p', forLoop H (fun y q => forLoop W (fun x q' => sliceSet q' (y * W + x) (f y x)) 0 q) 0 p
        = .ok p' ∧ p'.length = p.length ∧
      ∀ y x : Int, 0 ≤ y → y < H → 0 ≤ x → x < W → sliceGet p' (y * W + x) = .ok (f y x) := by
  have h := forLoop_invariant H
    (fun y q => forLoop W (fun x q' => sliceSet q' (y * W + x) (f y x)) 0 q)
    (fun y q => q.length = p.length ∧
      ∀ y' x' : Int, 0 ≤ y' → y' < y → 0 ≤ x' → x' < W →
        sliceGet q (y' * W + x') = .ok (f y' x')) 0
    (by
      intro y q hy0 hyH ⟨hlq, hq⟩
      have hin := forLoop_invariant W (fun x q' => sliceSet q' (y * W + x) (f y x))
        (fun x q' => q'.length = p.length ∧
          (∀ y' x' : Int, 0 ≤ y' → y' < y → 0 ≤ x' → x' < W →
            sliceGet q' (y' * W + x') = .ok (f y' x')) ∧
          (∀ x' : Int, 0 ≤ x' → x' < x → sliceGet q' (y * W + x') = .ok (f y x'))) 0
        (by
          intro x q' hx0 hxW ⟨hlq', hrows, hrow⟩
          have hidx := rowMajor_lt W H x y hxW hy0 hyH hx0
          have hin : 0 ≤ y * W + x ∧ y * W + x < (q'.length : Int) := by omega
          refine ⟨q'.set (y * W + x).toNat (f y x), by simp only [sliceSet, if_pos hin],
            by simp [hlq'], ?_, ?_⟩
          · intro y' x' hy'0 hy'y hx'0 hx'W
            rw [sliceGet_set q' _ _ _ hin.1 hin.2,
              if_neg (ne_of_lt (rowMajor_row_lt W x x' y y' hx0 hx'0 hx'W hy'y))]
            exact hrows y' x' hy'0 hy'y hx'0 hx'W
          · intro x' hx'0 hx'x
            rw [sliceGet_set q' _ _ _ hin.1 hin.2]
            by_cases hxx : x' = x
            · subst hxx
              rw [if_pos rfl]
            · rw [if_neg (by omega)]
              exact hrow x' hx'0 (by omega))
        0 q (le_refl 0) ⟨hlq, hq, fun x' h0 h1 => absurd h1 (by omega)⟩
      obtain ⟨q', hq', hlq', hrows, hrow⟩ := hin
      refine ⟨q', hq', hlq', ?_⟩
      intro y' x' hy'0 hy'y hx'0 hx'W
      by_cases hyy : y' = y
      · subst hyy
        exact hrow x' hx'0 (by rw [max_eq_right (by omega)]; exact hx'W)
      · exact hrows y' x' hy'0 (by omega) hx'0 hx'W)
    0 p (le_refl 0) ⟨rfl, fun y' x' h0 h1 => absurd h1 (by omega)⟩
  obtain ⟨p', hp', hlen', hall⟩ := h
  refine ⟨p', hp', hlen', ?_⟩
  intro y x hy0 hyH hx0 hxW
  exact hall y x hy0 (by rw [max_eq_right (by omega)]; exact hyH) hx0 hxW

/-- Reading a slice inside its bounds, with a default that is not used. -/
theorem sliceGet_getD {α : Type} (s : List α) (i : Int) (d : α) (h0 : 0 ≤ i)
    (h1 : i < s.length) : sliceGet s i = .ok (s.getD i.toNat d) := by
  have hn : i.toNat < s.length := by omega
  rw [sliceGet_of_lt s i h0 hn]
  simp [List.getD_eq_getElem?_getD, List.getElem?_eq_getElem hn]

/-- The conversion `int(x)` of an integer-valued float is that integer. -/
theorem goInt_intCast (n : Int) : goInt (n : Float64) = n := by
  unfold goInt
  split <;> simp

/-- With a palette of at least `minIterations` colours, the body of the inner
loop of `renderView` is one write into the pixel buffer: the palette lookup
stays inside the palette. -/
theorem renderViewPixel_eq (region : Rect) (width dx dy : Float64) (palette : List RGBA)
    (hpal : minIterations ≤ palette.length) (y x : Int) (pix : List RGBA) :
    renderViewPixel region width dx dy palette y x pix =
      sliceSet pix (y * goInt width + x)
        (palette.getD (getPixelColorIndex
          (complex (region.Min.X + (x : Float64) * dx) (region.Min.Y + (y : Float64) * dy))
          minIterations).toNat ⟨0, 0, 0, 0⟩) := by
  have hr := getPixelColorIndexLoop_bounds
    (complex (region.Min.X + (x : Float64) * dx) (region.Min.Y + (y : Float64) * dy))
    minIterations (complex 0 0) 0 (by decide)
  have hget := sliceGet_getD palette (getPixelColorIndex
    (complex (region.Min.X + (x : Float64) * dx) (region.Min.Y + (y : Float64) * dy))
    minIterations) ⟨0, 0, 0, 0⟩ hr.1 (by unfold getPixelColorIndex; omega)
  simp only [renderViewPixel, hget, bind, Except.bind]

/-- On a screen anchored at `(0,0)` with non-negative extents and with an
iteration cap of at least `minIterations`, `renderView` returns a picture, and
the pixel `(x, y)` holds the palette colour at the index that
`getPixelColorIndex` computes with the cap `minIterations`. -/
theorem renderView_pixels (screen region : Rect) (N : Int) (hN : minIterations ≤ N)
    (hmin : screen.Min = ⟨0, 0⟩) (hW : 0 ≤ screen.Max.X) (hH : 0 ≤ screen.Max.Y) :
    ∃ pic palette, renderView screen region N = .ok pic ∧ buildPalette N = .ok palette ∧
      ∀ x y : Int, 0 ≤ x → x < goInt screen.Max.X → 0 ≤ y → y < goInt screen.Max.Y →
        ∃ colour,
          sliceGet palette (getPixelColorIndex
            (complex
              (region.Min.X + (x : Float64) * ((region.Max.X - region.Min.X) / screen.Max.X))
              (region.Min.Y + (y : Float64) * ((region.Max.Y - region.Min.Y) / screen.Max.Y)))
            minIterations) = .ok colour ∧
          sliceGet pic.Pix (y * goInt screen.Max.X + x) = .ok colour := by
  have hN200 : (200 : Int) ≤ N := hN
  obtain ⟨palette, hpalette, hplen, -⟩ := buildPalette_entries N (by omega)
  have hpal : minIterations ≤ (palette.length : Int) := by omega
  obtain ⟨⟨sx0, sy0⟩, ⟨sx1, sy1⟩⟩ := screen
  simp only [Vec.mk.injEq] at hmin
  obtain ⟨rfl, rfl⟩ := hmin
  simp only at hW hH
  -- the picture buffer
  have hcw : 0 ≤ ⌈sx1⌉ := Int.ceil_nonneg hW
  have hch : 0 ≤ ⌈sy1⌉ := Int.ceil_nonneg hH
  have hfw : ⌊sx1⌋ ≤ ⌈sx1⌉ := Int.floor_le_ceil sx1
  have hfh : ⌊sy1⌋ ≤ ⌈sy1⌉ := Int.floor_le_ceil sy1
  have hfw0 : 0 ≤ ⌊sx1⌋ := Int.floor_nonneg.mpr hW
  have hfh0 : 0 ≤ ⌊sy1⌋ := Int.floor_nonneg.mpr hH
  have hsize : 0 ≤ ⌈sx1⌉ * ⌈sy1⌉ := Int.mul_nonneg hcw hch
  have hmk : MakePictureData ⟨⟨0, 0⟩, ⟨sx1, sy1⟩⟩ =
      .ok ⟨List.replicate (⌈sx1⌉ * ⌈sy1⌉).toNat ⟨0, 0, 0, 0⟩, ⌈sx1⌉, ⟨⟨0, 0⟩, ⟨sx1, sy1⟩⟩⟩ := by
    simp only [MakePictureData, goInt_intCast, Int.floor_zero, sub_zero, make,
      if_neg (not_lt.mpr hsize), bind, Except.bind, pure, Except.pure]
  have hgw : goInt sx1 = ⌊sx1⌋ := goInt_of_nonneg sx1 hW
  have hgh : goInt sy1 = ⌊sy1⌋ := goInt_of_nonneg sy1 hH
  have hbuf : goInt sy1 * goInt sx1 ≤
      ((List.replicate (⌈sx1⌉ * ⌈sy1⌉).toNat (⟨0, 0, 0, 0⟩ : RGBA)).length : Int) := by
    simp only [List.length_replicate, Int.toNat_of_nonneg hsize, hgw, hgh]
    calc ⌊sy1⌋ * ⌊sx1⌋ ≤ ⌈sy1⌉ * ⌈sx1⌉ := Int.mul_le_mul hfh hfw hfw0 hch
      _ = ⌈sx1⌉ * ⌈sy1⌉ := Int.mul_comm _ _
  obtain ⟨pix, hpix, -, hget⟩ := forLoop_fill (goInt sx1) (goInt sy1)
    (fun y x => palette.getD (getPixelColorIndex
      (complex (region.Min.X + (x : Float64) * ((region.Max.X - region.Min.X) / sx1))
        (region.Min.Y + (y : Float64) * ((region.Max.Y - region.Min.Y) / sy1)))
      minIterations).toNat ⟨0, 0, 0, 0⟩)
    (List.replicate (⌈sx1⌉ * ⌈sy1⌉).toNat ⟨0, 0, 0, 0⟩) hbuf
  have hbody : (fun (y : Int) (pix : List RGBA) =>
      forLoop (goInt sx1)
        (renderViewPixel region sx1 ((region.Max.X - region.Min.X) / sx1)
          ((region.Max.Y - region.Min.Y) / sy1) palette y) 0 pix) =
      (fun (y : Int) (q : List RGBA) => forLoop (goInt sx1) (fun x q' =>
        sliceSet q' (y * goInt sx1 + x) (palette.getD (getPixelColorIndex
          (complex (region.Min.X + (x : Float64) * ((region.Max.X - region.Min.X) / sx1))
            (region.Min.Y + (y : Float64) * ((region.Max.Y - region.Min.Y) / sy1)))
          minIterations).toNat ⟨0, 0, 0, 0⟩)) 0 q) := by
    funext y q
    congr 1
    funext x q'
    exact renderViewPixel_eq region sx1 _ _ palette hpal y x q'
  refine ⟨⟨pix, ⌈sx1⌉, ⟨⟨0, 0⟩, ⟨sx1, sy1⟩⟩⟩, palette, ?_, hpalette, ?_⟩
  · simp only [renderView, hmk, hpalette, hbody, hpix, bind, Except.bind, pure, Except.pure]
  · dsimp only
    intro x y hx0 hxW hy0 hyH
    have hr := getPixelColorIndexLoop_bounds
      (complex (region.Min.X + (x : Float64) * ((region.Max.X - region.Min.X) / sx1))
        (region.Min.Y + (y : Float64) * ((region.Max.Y - region.Min.Y) / sy1)))
      minIterations (complex 0 0) 0 (by decide)
    refine ⟨_, sliceGet_getD palette _ ⟨0, 0, 0, 0⟩ hr.1 (by unfold getPixelColorIndex; omega), ?_⟩
    exact hget y x hy0 hyH hx0 hxW

/-- The green channel that line 150 computes for index 199 of a 250-entry
palette is 145. -/
theorem buildPalette_250_green_199 :
    uint8 ((((199 : Int) : Float64) - ((Int.tdiv 250 4 - 1 : Int) : Float64)) /
        ((((250 : Int) : Float64)) - ((Int.tdiv 250 4 - 1 : Int) : Float64) - 1.0)
        * 0.77647058823529411764705882352941 * 255) = 145 := by
  have hq : Int.tdiv 250 4 = 62 := by decide
  rw [hq]
  have h0 : (0 : Float64) ≤ (((199 : Int) : Float64) - ((62 - 1 : Int) : Float64)) /
        ((((250 : Int) : Float64)) - ((62 - 1 : Int) : Float64) - 1.0)
        * 0.77647058823529411764705882352941 * 255 := by norm_num
  have h1 : (((199 : Int) : Float64) - ((62 - 1 : Int) : Float64)) /
        ((((250 : Int) : Float64)) - ((62 - 1 : Int) : Float64) - 1.0)
        * 0.77647058823529411764705882352941 * 255 < 256 := by norm_num
  have hfl : ⌊(((199 : Int) : Float64) - ((62 - 1 : Int) : Float64)) /
        ((((250 : Int) : Float64)) - ((62 - 1 : Int) : Float64) - 1.0)
        * 0.77647058823529411764705882352941 * 255⌋ = 145 := by
    rw [Int.floor_eq_iff]
    constructor <;> norm_num
  have hu := uint8_of_range _ h0 h1
  rw [hfl] at hu
  exact_mod_cast hu

/-- C7 at a failing input: after the first zoom the cap is 250; on the program's
window, with a region whose `Min` is `(0,0)`, pixel `(0,0)` maps to `0+0i`, which
never escapes (`getPixelColorIndex(0, 250) = 249`), yet `renderView` stores the
orange `(255,145,0,255)` there, while the palette's last entry, at index 249, is
the black `(0,0,0,255)`. -/
theorem renderView_nonEscaping_not_black :
    ∃ pic palette, renderView cfgBounds (R 0 0 1 1) 250 = .ok pic ∧
      buildPalette 250 = .ok palette ∧
      getPixelColorIndex (complex 0 0) 250 = 249 ∧
      sliceGet palette 249 = .ok ⟨0, 0, 0, 255⟩ ∧
      sliceGet pic.Pix (0 * goInt cfgBounds.Max.X + 0) = .ok ⟨255, 145, 0, 255⟩ := by
  obtain ⟨pic, palette, hpic, hpal, hpix⟩ := renderView_pixels cfgBounds (R 0 0 1 1) 250
    (by decide) rfl (by norm_num [cfgBounds, R]) (by norm_num [cfgBounds, R])
  obtain ⟨p, hp, -, -, horange, hlast⟩ := buildPalette_entries 250 (by decide)
  rw [hpal] at hp
  cases hp
  have hgx : goInt cfgBounds.Max.X = 1280 := by
    have : cfgBounds.Max.X = ((1280 : Int) : Float64) := by norm_num [cfgBounds, R]
    rw [this, goInt_intCast]
  have hgy : goInt cfgBounds.Max.Y = 984 := by
    have : cfgBounds.Max.Y = ((984 : Int) : Float64) := by norm_num [cfgBounds, R]
    rw [this, goInt_intCast]
  obtain ⟨colour, hc, hpx⟩ := hpix 0 0 (le_refl 0) (by rw [hgx]; decide) (le_refl 0)
    (by rw [hgy]; decide)
  have hzero : complex
      ((R 0 0 1 1).Min.X + ((0 : Int) : Float64) *
        (((R 0 0 1 1).Max.X - (R 0 0 1 1).Min.X) / cfgBounds.Max.X))
      ((R 0 0 1 1).Min.Y + ((0 : Int) : Float64) *
        (((R 0 0 1 1).Max.Y - (R 0 0 1 1).Min.Y) / cfgBounds.Max.Y)) = complex 0 0 := by
    simp [R]
  rw [hzero, getPixelColorIndex_origin minIterations (by decide)] at hc
  have h199 := horange 199 (by decide) (by decide)
  rw [buildPalette_250_green_199] at h199
  have hidx : minIterations - 1 = 199 := by decide
  rw [hidx, h199] at hc
  cases hc
  exact ⟨pic, palette, hpic, hpal, getPixelColorIndex_origin 250 (by decide), hlast, hpx⟩

/-! ## The event loop -/

/-- A selection whose two corners coincide is mapped, for every ratio, to the
zero-size rectangle at the linear image of that corner: the correction step adds
nothing on either branch. -/
theorem adjustedRegionWithRatio_point (screen logicalRegion : Rect) (r : Float64) (p : Vec) :
    adjustedRegionWithRatio screen (R (min p.X p.X) (min p.Y p.Y) (max p.X p.X) (max p.Y p.Y))
        r logicalRegion =
      ⟨⟨logicalRegion.Min.X +
          p.X / (screen.Max.X - screen.Min.X) * (logicalRegion.Max.X - logicalRegion.Min.X),
        logicalRegion.Min.Y +
          p.Y / (screen.Max.Y - screen.Min.Y) * (logicalRegion.Max.Y - logicalRegion.Min.Y)⟩,
       ⟨logicalRegion.Min.X +
          p.X / (screen.Max.X - screen.Min.X) * (logicalRegion.Max.X - logicalRegion.Min.X),
        logicalRegion.Min.Y +
          p.Y / (screen.Max.Y - screen.Min.Y) * (logicalRegion.Max.Y - logicalRegion.Min.Y)⟩⟩ := by
  simp only [adjustedRegionWithRatio, correctedRegion, R, min_self, max_self, sub_self,
    zero_div, zero_mul, sub_zero, add_zero]
  split <;> rfl

/-- The release step: in the selecting state, on a window anchored at `(0,0)`,
a released button makes `run` replace the region by the adjusted selection,
add `increment` to the iteration cap, render, and return to viewing. -/
theorem runStep_release (bounds : Rect) (pressed : Bool) (mouse : Vec) (s : Session)
    (hmin : bounds.Min = ⟨0, 0⟩) (hW : 0 ≤ bounds.Max.X) (hH : 0 ≤ bounds.Max.Y)
    (hs : s.state = State.selecting) (hit : minIterations ≤ s.iterations + increment) :
    ∃ pic, runStep bounds pressed true mouse s = .ok
      { s with
        region := adjustedRegionWithRatio bounds
          (R (min s.startPos.X mouse.X) (min s.startPos.Y mouse.Y)
             (max mouse.X s.startPos.X) (max mouse.Y s.startPos.Y))
          (screenRatio bounds) s.region,
        iterations := s.iterations + increment,
        pic := pic,
        state := State.viewing } := by
  obtain ⟨pic, -, hpic, -⟩ := renderView_pixels bounds
    (adjustedRegionWithRatio bounds
      (R (min s.startPos.X mouse.X) (min s.startPos.Y mouse.Y)
         (max mouse.X s.startPos.X) (max mouse.Y s.startPos.Y))
      (screenRatio bounds) s.region)
    (s.iterations + increment) hit hmin hW hH
  refine ⟨pic, ?_⟩
  have hne : ¬ (pressed = true ∧ s.state = State.viewing) := by
    rw [hs]
    rintro ⟨-, h⟩
    exact State.noConfusion h
  unfold runStep
  simp only [if_neg hne]
  simp only [hs, and_self, if_true, hpic, bind, Except.bind, pure, Except.pure]

/-- The first render succeeds on a window anchored at `(0,0)`, so `run` enters
its event loop in the viewing state with the initial region and the cap
`minIterations`. -/
theorem runInit_ok (bounds : Rect) (hmin : bounds.Min = ⟨0, 0⟩) (hW : 0 ≤ bounds.Max.X)
    (hH : 0 ≤ bounds.Max.Y) :
    ∃ pic, runInit bounds =
      .ok ⟨State.viewing, ⟨0, 0⟩, initialRegion bounds, minIterations, pic⟩ := by
  obtain ⟨pic, -, hpic, -⟩ := renderView_pixels bounds (initialRegion bounds) minIterations
    (le_refl _) hmin hW hH
  exact ⟨pic, by simp only [runInit, hpic, bind, Except.bind, pure, Except.pure]⟩

/-- The press step: in the viewing state a pressed, not released, button records
the mouse position and enters the selecting state; nothing else changes. -/
theorem runStep_press (bounds : Rect) (mouse : Vec) (s : Session)
    (hs : s.state = State.viewing) :
    runStep bounds true false mouse s =
      .ok { s with startPos := mouse, state := State.selecting } := by
  simp [runStep, hs, pure, Except.pure]

/-- C6 fails as stated: start the program, press at pixel (100,100) and release
at the same pixel.  The release step returns to viewing, but the iteration cap
goes from 200 to 250 and the logical region is replaced by the zero-size
rectangle at (-447/256, -255/256). -/
theorem runStep_degenerate_counterexample :
    ∃ s0 s1 s2, runInit cfgBounds = .ok s0 ∧
      runStep cfgBounds true false ⟨100, 100⟩ s0 = .ok s1 ∧
      runStep cfgBounds false true ⟨100, 100⟩ s1 = .ok s2 ∧
      s1.state = State.selecting ∧ s1.startPos = ⟨100, 100⟩ ∧
      s1.iterations = 200 ∧ s2.iterations = 250 ∧
      s1.region = R (-2) (-5 / 4) (5 / 4) (799 / 640) ∧
      s2.region = R (-447 / 256) (-255 / 256) (-447 / 256) (-255 / 256) ∧
      s2.state = State.viewing ∧
      s2.iterations ≠ s1.iterations ∧ s2.region ≠ s1.region := by
  have hW : (0 : Float64) ≤ cfgBounds.Max.X := by norm_num [cfgBounds, R]
  have hH : (0 : Float64) ≤ cfgBounds.Max.Y := by norm_num [cfgBounds, R]
  obtain ⟨pic0, h0⟩ := runInit_ok cfgBounds rfl hW hH
  have h1 := runStep_press cfgBounds ⟨100, 100⟩
    ⟨State.viewing, ⟨0, 0⟩, initialRegion cfgBounds, minIterations, pic0⟩ rfl
  obtain ⟨pic2, h2⟩ := runStep_release cfgBounds false ⟨100, 100⟩
    ⟨State.selecting, ⟨100, 100⟩, initialRegion cfgBounds, minIterations, pic0⟩
    rfl hW hH rfl (by show (200 : Int) ≤ 200 + 50; decide)
  have hr1 : initialRegion cfgBounds = R (-2) (-5 / 4) (5 / 4) (799 / 640) := by
    simp only [initialRegion, cfgBounds, R, minX, maxX, minY]
    norm_num
  have hr2 : adjustedRegionWithRatio cfgBounds
      (R (min (100 : Float64) 100) (min (100 : Float64) 100) (max (100 : Float64) 100)
        (max (100 : Float64) 100))
      (screenRatio cfgBounds) (initialRegion cfgBounds) =
      R (-447 / 256) (-255 / 256) (-447 / 256) (-255 / 256) := by
    rw [adjustedRegionWithRatio_point cfgBounds (initialRegion cfgBounds) _ ⟨100, 100⟩, hr1]
    simp only [cfgBounds, R]
    norm_num
  refine ⟨_, _, _, h0, h1, h2, rfl, rfl, rfl, rfl, hr1, hr2, rfl,
    by show (200 : Int) + 50 ≠ 200; decide, ?_⟩
  show adjustedRegionWithRatio cfgBounds _ _ _ ≠ initialRegion cfgBounds
  rw [hr2, hr1]
  simp only [R, ne_eq, Rect.mk.injEq, Vec.mk.injEq]
  norm_num

/-- C6 (amended): when a zoom gesture ends at the pixel `p` where it started, the
release step returns the state to viewing, adds `increment` (50) to the
iteration cap, and replaces the logical region by the zero-size rectangle at the
linear image of `p`, `region.Min + p / windowExtent * regionExtent` on each axis. -/
theorem runStep_release_degenerate (bounds : Rect) (pressed : Bool) (p : Vec) (s : Session)
    (hmin : bounds.Min = ⟨0, 0⟩) (hW : 0 ≤ bounds.Max.X) (hH : 0 ≤ bounds.Max.Y)
    (hs : s.state = State.selecting) (hp : s.startPos = p)
    (hit : minIterations ≤ s.iterations) :
    ∃ s', runStep bounds pressed true p s = .ok s' ∧
      s'.state = State.viewing ∧
      s'.iterations = s.iterations + increment ∧
      s'.region =
        ⟨⟨s.region.Min.X + p.X / (bounds.Max.X - bounds.Min.X) * (s.region.Max.X - s.region.Min.X),
          s.region.Min.Y + p.Y / (bounds.Max.Y - bounds.Min.Y) * (s.region.Max.Y - s.region.Min.Y)⟩,
         ⟨s.region.Min.X + p.X / (bounds.Max.X - bounds.Min.X) * (s.region.Max.X - s.region.Min.X),
          s.region.Min.Y + p.Y / (bounds.Max.Y - bounds.Min.Y) * (s.region.Max.Y - s.region.Min.Y)⟩⟩ := by
  have hinc : (0 : Int) ≤ increment := by decide
  obtain ⟨pic, hstep⟩ := runStep_release bounds pressed p s hmin hW hH hs (by omega)
  refine ⟨_, hstep, rfl, rfl, ?_⟩
  show adjustedRegionWithRatio bounds _ _ _ = _
  rw [hp]
  exact adjustedRegionWithRatio_point bounds s.region (screenRatio bounds) p

/-- Instance of the amended C6: the program's window, the initial region, the
cap 200, and a gesture that starts and ends at pixel (100,100). -/
theorem runStep_release_degenerate_witness :
    cfgBounds.Min = ⟨0, 0⟩ ∧ 0 ≤ cfgBounds.Max.X ∧ 0 ≤ cfgBounds.Max.Y ∧
    minIterations ≤ (200 : Int) ∧
    ∃ s', runStep cfgBounds false true ⟨100, 100⟩
        ⟨State.selecting, ⟨100, 100⟩, initialRegion cfgBounds, 200, ⟨[], 0, cfgBounds⟩⟩ = .ok s' ∧
      s'.state = State.viewing ∧
      s'.iterations = 200 + increment ∧
      s'.region =
        ⟨⟨(initialRegion cfgBounds).Min.X + 100 / (cfgBounds.Max.X - cfgBounds.Min.X) *
            ((initialRegion cfgBounds).Max.X - (initialRegion cfgBounds).Min.X),
          (initialRegion cfgBounds).Min.Y + 100 / (cfgBounds.Max.Y - cfgBounds.Min.Y) *
            ((initialRegion cfgBounds).Max.Y - (initialRegion cfgBounds).Min.Y)⟩,
         ⟨(initialRegion cfgBounds).Min.X + 100 / (cfgBounds.Max.X - cfgBounds.Min.X) *
            ((initialRegion cfgBounds).Max.X - (initialRegion cfgBounds).Min.X),
          (initialRegion cfgBounds).Min.Y + 100 / (cfgBounds.Max.Y - cfgBounds.Min.Y) *
            ((initialRegion cfgBounds).Max.Y - (initialRegion cfgBounds).Min.Y)⟩⟩ :=
  ⟨rfl, by norm_num [cfgBounds, R], by norm_num [cfgBounds, R], by decide,
    runStep_release_degenerate cfgBounds false ⟨100, 100⟩
      ⟨State.selecting, ⟨100, 100⟩, initialRegion cfgBounds, 200, ⟨[], 0, cfgBounds⟩⟩
      rfl (by norm_num [cfgBounds, R]) (by norm_num [cfgBounds, R]) rfl rfl (by decide)⟩

/-! ## The renderer and the iteration cap -/

/-- C11 at a failing input: on the program's window, with the region
(0,0)-(1,1) and the cap `N = 250`, the buffer entry of pixel `(0,0)` is the
palette colour at index `getPixelColorIndex(c, minIterations)`, and it differs
from the colour `buildPalette(N)[getPixelColorIndex(c, N)]` that the claim
names, for the point `c` the claim's formula gives for that pixel. -/
theorem renderView_pixel_ignores_cap :
    ∃ pic palette, renderView cfgBounds (R 0 0 1 1) 250 = .ok pic ∧
      buildPalette 250 = .ok palette ∧
      sliceGet pic.Pix (0 * goInt cfgBounds.Max.X + 0) =
        sliceGet palette (getPixelColorIndex
          (complex
            ((R 0 0 1 1).Min.X + ((0 : Int) : Float64) *
              (((R 0 0 1 1).Max.X - (R 0 0 1 1).Min.X) / cfgBounds.Max.X))
            ((R 0 0 1 1).Min.Y + ((0 : Int) : Float64) *
              (((R 0 0 1 1).Max.Y - (R 0 0 1 1).Min.Y) / cfgBounds.Max.Y)))
          minIterations) ∧
      sliceGet pic.Pix (0 * goInt cfgBounds.Max.X + 0) ≠
        sliceGet palette (getPixelColorIndex
          (complex
            ((R 0 0 1 1).Min.X + ((0 : Int) : Float64) *
              (((R 0 0 1 1).Max.X - (R 0 0 1 1).Min.X) / cfgBounds.Max.X))
            ((R 0 0 1 1).Min.Y + ((0 : Int) : Float64) *
              (((R 0 0 1 1).Max.Y - (R 0 0 1 1).Min.Y) / cfgBounds.Max.Y)))
          250) := by
  obtain ⟨pic, palette, hpic, hpal, hpix⟩ := renderView_pixels cfgBounds (R 0 0 1 1) 250
    (by decide) rfl (by norm_num [cfgBounds, R]) (by norm_num [cfgBounds, R])
  obtain ⟨p, hp, -, -, horange, hlast⟩ := buildPalette_entries 250 (by decide)
  rw [hpal] at hp
  cases hp
  have hgx : goInt cfgBounds.Max.X = 1280 := by
    have : cfgBounds.Max.X = ((1280 : Int) : Float64) := by norm_num [cfgBounds, R]
    rw [this, goInt_intCast]
  have hgy : goInt cfgBounds.Max.Y = 984 := by
    have : cfgBounds.Max.Y = ((984 : Int) : Float64) := by norm_num [cfgBounds, R]
    rw [this, goInt_intCast]
  obtain ⟨colour, hc, hpx⟩ := hpix 0 0 (le_refl 0) (by rw [hgx]; decide) (le_refl 0)
    (by rw [hgy]; decide)
  refine ⟨pic, palette, hpic, hpal, by rw [hpx, hc], ?_⟩
  have hzero : complex
      ((R 0 0 1 1).Min.X + ((0 : Int) : Float64) *
        (((R 0 0 1 1).Max.X - (R 0 0 1 1).Min.X) / cfgBounds.Max.X))
      ((R 0 0 1 1).Min.Y + ((0 : Int) : Float64) *
        (((R 0 0 1 1).Max.Y - (R 0 0 1 1).Min.Y) / cfgBounds.Max.Y)) = complex 0 0 := by
    simp [R]
  rw [hzero, getPixelColorIndex_origin minIterations (by decide)] at hc
  have h199 := horange 199 (by decide) (by decide)
  rw [buildPalette_250_green_199] at h199
  have hidx : minIterations - 1 = 199 := by decide
  rw [hidx, h199] at hc
  cases hc
  rw [hpx, hzero, getPixelColorIndex_origin 250 (by decide), hlast]
  intro h
  cases h

/-- C18: for every iteration cap `N ≥ 200`, the palette `buildPalette(N)` has
`N` entries, and for every pixel, screen width and region the index that the
body of `renderView` looks up lies in `[0, 199]`, the lookup succeeds, and the
colour written to the buffer is that entry: the entries at indices
`200 .. N-1` are not used. -/
theorem renderView_lookup_index_le_199 (N : Int) (hN : 200 ≤ N) :
    ∃ palette, buildPalette N = .ok palette ∧ (palette.length : Int) = N ∧
      ∀ (region : Rect) (width dx dy : Float64) (y x : Int) (pix : List RGBA),
        ∃ ci colour,
          ci = getPixelColorIndex
            (complex (region.Min.X + (x : Float64) * dx) (region.Min.Y + (y : Float64) * dy))
            minIterations ∧
          0 ≤ ci ∧ ci ≤ 199 ∧ ci < N ∧
          sliceGet palette ci = .ok colour ∧
          renderViewPixel region width dx dy palette y x pix =
            sliceSet pix (y * goInt width + x) colour := by
  obtain ⟨palette, hpalette, hplen, -⟩ := buildPalette_entries N (by omega)
  refine ⟨palette, hpalette, hplen, ?_⟩
  intro region width dx dy y x pix
  have hr := getPixelColorIndexLoop_bounds
    (complex (region.Min.X + (x : Float64) * dx) (region.Min.Y + (y : Float64) * dy))
    minIterations (complex 0 0) 0 (by decide)
  have hmin : minIterations = 200 := rfl
  have hci : getPixelColorIndex
      (complex (region.Min.X + (x : Float64) * dx) (region.Min.Y + (y : Float64) * dy))
      minIterations ≤ 199 := by
    unfold getPixelColorIndex
    omega
  refine ⟨_, _, rfl, hr.1, hci, by omega,
    sliceGet_getD palette _ ⟨0, 0, 0, 0⟩ hr.1 (by omega), ?_⟩
  exact renderViewPixel_eq region width dx dy palette (by omega) y x pix

/-- Instance of C18 at `N = 250`, the cap after the first zoom. -/
theorem renderView_lookup_index_le_199_witness :
    (200 : Int) ≤ 250 ∧
    ∃ palette, buildPalette 250 = .ok palette ∧ (palette.length : Int) = 250 ∧
      ∀ (region : Rect) (width dx dy : Float64) (y x : Int) (pix : List RGBA),
        ∃ ci colour,
          ci = getPixelColorIndex
            (complex (region.Min.X + (x : Float64) * dx) (region.Min.Y + (y : Float64) * dy))
            minIterations ∧
          0 ≤ ci ∧ ci ≤ 199 ∧ ci < 250 ∧
          sliceGet palette ci = .ok colour ∧
          renderViewPixel region width dx dy palette y x pix =
            sliceSet pix (y * goInt width + x) colour :=
  ⟨by decide, renderView_lookup_index_le_199 250 (by decide)⟩

/-! ## The region adjuster: shape of the result -/

/-- The correction step on the branch `w / h > r`: the height grows to `w / r`,
half of the increase on each side. -/
theorem correctedRegion_wide (region : Rect) (r : Float64)
    (hc : (region.Max.X - region.Min.X) / (region.Max.Y - region.Min.Y) > r) :
    correctedRegion region r =
      ⟨⟨region.Min.X,
        region.Min.Y - ((region.Max.X - region.Min.X) / r - (region.Max.Y - region.Min.Y)) / 2⟩,
       ⟨region.Max.X,
        region.Max.Y + ((region.Max.X - region.Min.X) / r - (region.Max.Y - region.Min.Y)) / 2⟩⟩ := by
  simp only [correctedRegion, if_pos hc]

/-- The correction step on the branch `w / h ≤ r`: the width grows to `h * r`,
half of the increase on each side. -/
theorem correctedRegion_tall (region : Rect) (r : Float64)
    (hc : ¬ (region.Max.X - region.Min.X) / (region.Max.Y - region.Min.Y) > r) :
    correctedRegion region r =
      ⟨⟨region.Min.X - ((region.Max.Y - region.Min.Y) * r - (region.Max.X - region.Min.X)) / 2,
        region.Min.Y⟩,
       ⟨region.Max.X + ((region.Max.Y - region.Min.Y) * r - (region.Max.X - region.Min.X)) / 2,
        region.Max.Y⟩⟩ := by
  simp only [correctedRegion, if_neg hc]

/-- The corrected rectangle of the selection (100,100)-(300,250) for the ratio
1280/984. -/
theorem correctedRegion_scenario :
    correctedRegion (R 100 100 300 250) (1280 / 984) = R 100 (785 / 8) 300 (2015 / 8) := by
  simp only [correctedRegion, R]
  norm_num

/-- C13: end-to-end scenario.  With the screen (0,0)-(1280,984), the ratio
1280/984, the program's initial logical region and the selection
(100,100)-(300,250), the correction step brings the height to `200/(1280/984)`,
the corrected rectangle is within 0.01 of (100, 98.12, 300, 251.88) on every
bound, and `adjustedRegionWithRatio` returns the linear interpolation of that
rectangle into the initial region. -/
theorem adjustedRegionWithRatio_scenario :
    screenRatio cfgBounds = 1280 / 984 ∧
    initialRegion cfgBounds = R (-2.0) (-1.25) 1.25 ((1.25 - (-2.0)) * 984 / 1280 + (-1.25)) ∧
    (correctedRegion (R 100 100 300 250) (1280 / 984)).Max.Y -
      (correctedRegion (R 100 100 300 250) (1280 / 984)).Min.Y = 200 / (1280 / 984) ∧
    |(correctedRegion (R 100 100 300 250) (1280 / 984)).Min.X - 100| ≤ 0.01 ∧
    |(correctedRegion (R 100 100 300 250) (1280 / 984)).Min.Y - 98.12| ≤ 0.01 ∧
    |(correctedRegion (R 100 100 300 250) (1280 / 984)).Max.X - 300| ≤ 0.01 ∧
    |(correctedRegion (R 100 100 300 250) (1280 / 984)).Max.Y - 251.88| ≤ 0.01 ∧
    adjustedRegionWithRatio cfgBounds (R 100 100 300 250) (screenRatio cfgBounds)
        (initialRegion cfgBounds) =
      ⟨⟨-2 + 3.25 * 100 / 1280,
        (initialRegion cfgBounds).Min.Y +
          (correctedRegion (R 100 100 300 250) (1280 / 984)).Min.Y / 984 *
            ((initialRegion cfgBounds).Max.Y - (initialRegion cfgBounds).Min.Y)⟩,
       ⟨-2 + 3.25 * 300 / 1280,
        (initialRegion cfgBounds).Min.Y +
          (correctedRegion (R 100 100 300 250) (1280 / 984)).Max.Y / 984 *
            ((initialRegion cfgBounds).Max.Y - (initialRegion cfgBounds).Min.Y)⟩⟩ := by
  have hratio : screenRatio cfgBounds = 1280 / 984 := by
    simp only [screenRatio, cfgBounds, R]
    norm_num
  have hinit : initialRegion cfgBounds =
      R (-2.0) (-1.25) 1.25 ((1.25 - (-2.0)) * 984 / 1280 + (-1.25)) := by
    simp only [initialRegion, cfgBounds, R, minX, maxX, minY]
  refine ⟨hratio, hinit, ?_, ?_, ?_, ?_, ?_, ?_⟩
  · rw [correctedRegion_scenario]
    norm_num [R]
  · rw [correctedRegion_scenario, abs_le]
    constructor <;> norm_num [R]
  · rw [correctedRegion_scenario, abs_le]
    constructor <;> norm_num [R]
  · rw [correctedRegion_scenario, abs_le]
    constructor <;> norm_num [R]
  · rw [correctedRegion_scenario, abs_le]
    constructor <;> norm_num [R]
  · simp only [adjustedRegionWithRatio, hratio, correctedRegion_scenario, hinit]
    simp only [cfgBounds, R, Rect.mk.injEq, Vec.mk.injEq]
    norm_num

/-- C15: axis choice and centre preservation.  For a normalized selection
`(x0,y0)-(x1,y1)` with positive width `w` and height `h`, `r > 0` and a screen of
positive extent: if `w/h > r` the result is the linear map into the current
region of `(x0, cy - w/(2r), x1, cy + w/(2r))` with `cy = (y0+y1)/2`; otherwise
it is the linear map of `(cx - h*r/2, y0, cx + h*r/2, y1)` with `cx = (x0+x1)/2`.
The linear map sends a screen coordinate `s` to
`currentRegion.min + (s / screenExtent) * currentRegion.extent`. -/
theorem adjustedRegionWithRatio_axis (screen region logicalRegion : Rect) (r : Float64)
    (_hw : 0 < region.Max.X - region.Min.X) (_hh : 0 < region.Max.Y - region.Min.Y)
    (_hr : 0 < r)
    (_hsw : 0 < screen.Max.X - screen.Min.X) (_hsh : 0 < screen.Max.Y - screen.Min.Y) :
    ((region.Max.X - region.Min.X) / (region.Max.Y - region.Min.Y) > r →
      adjustedRegionWithRatio screen region r logicalRegion =
        ⟨⟨logicalRegion.Min.X + region.Min.X / (screen.Max.X - screen.Min.X) *
            (logicalRegion.Max.X - logicalRegion.Min.X),
          logicalRegion.Min.Y +
            ((region.Min.Y + region.Max.Y) / 2 - (region.Max.X - region.Min.X) / (2 * r)) /
              (screen.Max.Y - screen.Min.Y) * (logicalRegion.Max.Y - logicalRegion.Min.Y)⟩,
         ⟨logicalRegion.Min.X + region.Max.X / (screen.Max.X - screen.Min.X) *
            (logicalRegion.Max.X - logicalRegion.Min.X),
          logicalRegion.Min.Y +
            ((region.Min.Y + region.Max.Y) / 2 + (region.Max.X - region.Min.X) / (2 * r)) /
              (screen.Max.Y - screen.Min.Y) * (logicalRegion.Max.Y - logicalRegion.Min.Y)⟩⟩) ∧
    (¬ (region.Max.X - region.Min.X) / (region.Max.Y - region.Min.Y) > r →
      adjustedRegionWithRatio screen region r logicalRegion =
        ⟨⟨logicalRegion.Min.X +
            ((region.Min.X + region.Max.X) / 2 - (region.Max.Y - region.Min.Y) * r / 2) /
              (screen.Max.X - screen.Min.X) * (logicalRegion.Max.X - logicalRegion.Min.X),
          logicalRegion.Min.Y + region.Min.Y / (screen.Max.Y - screen.Min.Y) *
            (logicalRegion.Max.Y - logicalRegion.Min.Y)⟩,
         ⟨logicalRegion.Min.X +
            ((region.Min.X + region.Max.X) / 2 + (region.Max.Y - region.Min.Y) * r / 2) /
              (screen.Max.X - screen.Min.X) * (logicalRegion.Max.X - logicalRegion.Min.X),
          logicalRegion.Min.Y + region.Max.Y / (screen.Max.Y - screen.Min.Y) *
            (logicalRegion.Max.Y - logicalRegion.Min.Y)⟩⟩) := by
  constructor
  · intro hc
    have e1 : region.Min.Y -
        ((region.Max.X - region.Min.X) / r - (region.Max.Y - region.Min.Y)) / 2 =
        (region.Min.Y + region.Max.Y) / 2 - (region.Max.X - region.Min.X) / (2 * r) := by
      rw [mul_comm 2 r, ← div_div]
      ring
    have e2 : region.Max.Y +
        ((region.Max.X - region.Min.X) / r - (region.Max.Y - region.Min.Y)) / 2 =
        (region.Min.Y + region.Max.Y) / 2 + (region.Max.X - region.Min.X) / (2 * r) := by
      rw [mul_comm 2 r, ← div_div]
      ring
    simp only [adjustedRegionWithRatio, correctedRegion_wide region r hc, e1, e2]
  · intro hc
    have e1 : region.Min.X -
        ((region.Max.Y - region.Min.Y) * r - (region.Max.X - region.Min.X)) / 2 =
        (region.Min.X + region.Max.X) / 2 - (region.Max.Y - region.Min.Y) * r / 2 := by
      ring
    have e2 : region.Max.X +
        ((region.Max.Y - region.Min.Y) * r - (region.Max.X - region.Min.X)) / 2 =
        (region.Min.X + region.Max.X) / 2 + (region.Max.Y - region.Min.Y) * r / 2 := by
      ring
    simp only [adjustedRegionWithRatio, correctedRegion_tall region r hc, e1, e2]

/-- Instance of C15: the window (0,0)-(1280,984), the selection
(100,100)-(300,250), wider than the ratio 1280/984, and the region (0,0)-(1,1):
the X bounds are mapped untouched, the Y bounds are `175 ∓ 200/(2r)`, mapped. -/
theorem adjustedRegionWithRatio_axis_witness :
    0 < (R 100 100 300 250).Max.X - (R 100 100 300 250).Min.X ∧
    0 < (R 100 100 300 250).Max.Y - (R 100 100 300 250).Min.Y ∧
    (0 : Float64) < 1280 / 984 ∧
    0 < cfgBounds.Max.X - cfgBounds.Min.X ∧ 0 < cfgBounds.Max.Y - cfgBounds.Min.Y ∧
    ((R 100 100 300 250).Max.X - (R 100 100 300 250).Min.X) /
      ((R 100 100 300 250).Max.Y - (R 100 100 300 250).Min.Y) > 1280 / 984 ∧
    adjustedRegionWithRatio cfgBounds (R 100 100 300 250) (1280 / 984) (R 0 0 1 1) =
      ⟨⟨0 + 100 / (1280 - 0) * (1 - 0),
        0 + ((100 + 250) / 2 - (300 - 100) / (2 * (1280 / 984))) / (984 - 0) * (1 - 0)⟩,
       ⟨0 + 300 / (1280 - 0) * (1 - 0),
        0 + ((100 + 250) / 2 + (300 - 100) / (2 * (1280 / 984))) / (984 - 0) * (1 - 0)⟩⟩ :=
  ⟨by norm_num [R], by norm_num [R], by norm_num, by norm_num [cfgBounds, R],
    by norm_num [cfgBounds, R], by norm_num [R],
    (adjustedRegionWithRatio_axis cfgBounds (R 100 100 300 250) (R 0 0 1 1) (1280 / 984)
      (by norm_num [R]) (by norm_num [R]) (by norm_num) (by norm_num [cfgBounds, R])
      (by norm_num [cfgBounds, R])).1 (by norm_num [R])⟩

/-- C16 fails as stated: for the corners (100,100) and (300,250), the program's
window, its ratio and its initial region, `adjustedRegionWithRatio` called with
the corners swapped on the X axis returns a region different from the one it
returns for the normalized selection: the negative width sends it down the
other branch of the correction. -/
theorem adjustedRegionWithRatio_swapped_counterexample :
    0 < cfgBounds.Max.X - cfgBounds.Min.X ∧ 0 < cfgBounds.Max.Y - cfgBounds.Min.Y ∧
    0 < screenRatio cfgBounds ∧
    adjustedRegionWithRatio cfgBounds (R 300 100 100 250) (screenRatio cfgBounds)
        (initialRegion cfgBounds) =
      R (-9131 / 5248) (-255 / 256) (-6531 / 5248) (-315 / 512) ∧
    adjustedRegionWithRatio cfgBounds (R 100 100 300 250) (screenRatio cfgBounds)
        (initialRegion cfgBounds) =
      R (-447 / 256) (-8199 / 8192) (-317 / 256) (-5001 / 8192) ∧
    adjustedRegionWithRatio cfgBounds (R 300 100 100 250) (screenRatio cfgBounds)
        (initialRegion cfgBounds) ≠
      adjustedRegionWithRatio cfgBounds (R 100 100 300 250) (screenRatio cfgBounds)
        (initialRegion cfgBounds) := by
  have h1 : adjustedRegionWithRatio cfgBounds (R 300 100 100 250) (screenRatio cfgBounds)
        (initialRegion cfgBounds) =
      R (-9131 / 5248) (-255 / 256) (-6531 / 5248) (-315 / 512) := by
    simp only [adjustedRegionWithRatio, correctedRegion, screenRatio, initialRegion, cfgBounds,
      R, minX, maxX, minY]
    norm_num
  have h2 : adjustedRegionWithRatio cfgBounds (R 100 100 300 250) (screenRatio cfgBounds)
        (initialRegion cfgBounds) =
      R (-447 / 256) (-8199 / 8192) (-317 / 256) (-5001 / 8192) := by
    simp only [adjustedRegionWithRatio, correctedRegion, screenRatio, initialRegion, cfgBounds,
      R, minX, maxX, minY]
    norm_num
  refine ⟨by norm_num [cfgBounds, R], by norm_num [cfgBounds, R],
    by norm_num [screenRatio, cfgBounds, R], h1, h2, ?_⟩
  rw [h1, h2]
  simp only [R, ne_eq, Rect.mk.injEq, Vec.mk.injEq]
  norm_num

/-- C16 (amended): corner-order independence holds for the release step of
`run`, which normalizes the two corners per axis before it calls
`adjustedRegionWithRatio`.  For two corners `(x0,y0)` and `(x1,y1)`, whichever of
the four corner pairs of their rectangle is the start and the opposite one the
end of the gesture, the release step succeeds and its new region is
`adjustedRegionWithRatio` of the normalized rectangle
`(min x0 x1, min y0 y1)-(max x0 x1, max y0 y1)`. -/
theorem runStep_corner_order (bounds : Rect) (pressed : Bool) (s : Session)
    (x0 y0 x1 y1 sx sy ex ey : Float64)
    (hmin : bounds.Min = ⟨0, 0⟩) (hW : 0 ≤ bounds.Max.X) (hH : 0 ≤ bounds.Max.Y)
    (hs : s.state = State.selecting) (hit : minIterations ≤ s.iterations)
    (hx : (sx = x0 ∧ ex = x1) ∨ (sx = x1 ∧ ex = x0))
    (hy : (sy = y0 ∧ ey = y1) ∨ (sy = y1 ∧ ey = y0)) :
    ∃ s', runStep bounds pressed true ⟨ex, ey⟩ { s with startPos := ⟨sx, sy⟩ } = .ok s' ∧
      s'.state = State.viewing ∧
      s'.region = adjustedRegionWithRatio bounds
        (R (min x0 x1) (min y0 y1) (max x0 x1) (max y0 y1)) (screenRatio bounds) s.region := by
  have hinc : (0 : Int) ≤ increment := by decide
  obtain ⟨pic, hstep⟩ := runStep_release bounds pressed ⟨ex, ey⟩ { s with startPos := ⟨sx, sy⟩ }
    hmin hW hH hs (by show minIterations ≤ s.iterations + increment; omega)
  refine ⟨_, hstep, rfl, ?_⟩
  show adjustedRegionWithRatio bounds (R (min sx ex) (min sy ey) (max ex sx) (max ey sy))
    (screenRatio bounds) s.region = _
  rcases hx with ⟨rfl, rfl⟩ | ⟨rfl, rfl⟩ <;> rcases hy with ⟨rfl, rfl⟩ | ⟨rfl, rfl⟩ <;>
    simp only [min_comm, max_comm]

/-- Instance of the amended C16: on the program's window, a gesture from
(300,100) to (100,250), the corners (100,100) and (300,250) swapped on the X
axis, gives the region of the normalized selection. -/
theorem runStep_corner_order_witness :
    cfgBounds.Min = ⟨0, 0⟩ ∧ 0 ≤ cfgBounds.Max.X ∧ 0 ≤ cfgBounds.Max.Y ∧
    minIterations ≤ (200 : Int) ∧
    ∃ s', runStep cfgBounds false true ⟨100, 250⟩
        { (⟨State.selecting, ⟨0, 0⟩, initialRegion cfgBounds, 200, ⟨[], 0, cfgBounds⟩⟩ : Session)
          with startPos := ⟨300, 100⟩ } = .ok s' ∧
      s'.state = State.viewing ∧
      s'.region = adjustedRegionWithRatio cfgBounds
        (R (min 100 300) (min 100 250) (max 100 300) (max 100 250)) (screenRatio cfgBounds)
        (initialRegion cfgBounds) :=
  ⟨rfl, by norm_num [cfgBounds, R], by norm_num [cfgBounds, R], by decide,
    runStep_corner_order cfgBounds false
      ⟨State.selecting, ⟨0, 0⟩, initialRegion cfgBounds, 200, ⟨[], 0, cfgBounds⟩⟩
      100 100 300 250 300 100 100 250
      rfl (by norm_num [cfgBounds, R]) (by norm_num [cfgBounds, R]) rfl (by decide)
      (Or.inr ⟨rfl, rfl⟩) (Or.inl ⟨rfl, rfl⟩)⟩

/-! ## The palette and the specification's formula -/

/-- On `[0, 256)` the conversion `uint8` is the floor, as a natural number. -/
theorem uint8_eq_floor (x : Float64) (h0 : 0 ≤ x) (h1 : x < 256) : uint8 x = ⌊x⌋.toNat := by
  have := uint8_of_range x h0 h1
  omega

/-- C17 fails as stated: for `size = 17` and `i = 1`, below `start = 3`, the
specification's formula gives red `round(1 / 4 * 255) = 64`, while `buildPalette`
stores red `60`: it divides by `float64(size) / 4 = 4.25`, not by the integer
quarter, and `uint8` discards the fraction instead of rounding. -/
theorem buildPalette_spec_formula_counterexample :
    (4 : Int) ≤ 17 ∧ (0 : Int) ≤ 1 ∧ (1 : Int) < Int.tdiv 17 4 - 1 ∧
    specPaletteEntry 17 1 = ⟨64, 0, 0, 255⟩ ∧
    ∃ p, buildPalette 17 = .ok p ∧ sliceGet p 1 = .ok ⟨60, 0, 0, 255⟩ ∧
      sliceGet p 1 ≠ .ok (specPaletteEntry 17 1) := by
  have hspec : specPaletteEntry 17 1 = ⟨64, 0, 0, 255⟩ := by
    have hq : Int.tdiv 17 4 = 4 := by decide
    have hr : round ((((1 : Int) : Float64)) / (((4 : Int) : Float64)) * 255) = 64 := by
      rw [round_eq, Int.floor_eq_iff]
      constructor <;> norm_num
    simp only [specPaletteEntry, hq]
    rw [if_neg (by decide), if_neg (by decide), hr]
    rfl
  obtain ⟨p, hp, -, hred, -, -⟩ := buildPalette_entries 17 (by decide)
  have h1 := hred 1 (by decide) (by decide)
  have hu : uint8 ((((1 : Int) : Float64)) / ((((17 : Int) : Float64)) / 4) * 255) = 60 := by
    rw [uint8_eq_floor _ (by norm_num) (by norm_num)]
    have : ⌊(((1 : Int) : Float64)) / ((((17 : Int) : Float64)) / 4) * 255⌋ = 60 := by
      rw [Int.floor_eq_iff]
      constructor <;> norm_num
    rw [this]
    rfl
  rw [hu] at h1
  refine ⟨by decide, by decide, by decide, hspec, p, hp, h1, ?_⟩
  rw [h1, hspec]
  intro h
  cases h

/-! ## Binary64 rounding -/

/-- A rational strictly within one half of the integer `m` rounds to `m`. -/
theorem roundHalfEven_eq (x : ℚ) (m : Int) (hlo : (m : ℚ) - 1 / 2 < x)
    (hhi : x < (m : ℚ) + 1 / 2) : roundHalfEven x = m := by
  unfold roundHalfEven
  by_cases hx : (m : ℚ) ≤ x
  · have hf : ⌊x⌋ = m := by
      rw [Int.floor_eq_iff]
      constructor
      · exact hx
      · linarith
    rw [hf, if_pos (by linarith)]
  · have hf : ⌊x⌋ = m - 1 := by
      rw [Int.floor_eq_iff]
      push_cast
      constructor <;> linarith
    have hx' : x < m := not_le.mp hx
    rw [hf]
    push_cast
    rw [if_neg (by linarith), if_pos (by linarith)]
    ring

/-- Evaluation of `fl64`: for `2^e ≤ |q| < 2^(e+1)` with `e ≥ -1022`, if
`q / 2^(e-52)` is strictly within one half of the integer `m`, then `q` rounds to
`m * 2^(e-52)`. -/
theorem fl64_eq (q : ℚ) (e m : Int) (he : -1022 ≤ e)
    (h1 : (2 : ℚ) ^ e ≤ |q|) (h2 : |q| < (2 : ℚ) ^ (e + 1))
    (hlo : (m : ℚ) - 1 / 2 < q / 2 ^ (e - 52)) (hhi : q / 2 ^ (e - 52) < (m : ℚ) + 1 / 2) :
    fl64 q = (m : ℚ) * 2 ^ (e - 52) := by
  have hpos : 0 < |q| := lt_of_lt_of_le (by positivity) h1
  have hq0 : q ≠ 0 := abs_pos.mp hpos
  have hlog : Int.log 2 |q| = e := by
    apply le_antisymm
    · have := (Int.lt_zpow_iff_log_lt (R := ℚ) (b := 2) (by norm_num) (x := e + 1) hpos).mp
        (by exact_mod_cast h2)
      omega
    · exact (Int.zpow_le_iff_le_log (R := ℚ) (b := 2) (by norm_num) hpos).mp
        (by exact_mod_cast h1)
  unfold fl64
  rw [if_neg hq0]
  simp only [hlog, max_eq_left he]
  rw [roundHalfEven_eq _ m hlo hhi]

/-- C17 (amended): for every `size ≥ 4`, with `start = size/4 - 1` (integer
division), `buildPalette(size)` returns `size` colours, and with the channel
arithmetic carried out in float64, one rounding per operation, and converted by
`uint8` (the fraction is discarded, not rounded): entry `i` is
`(uint8(i / (size / 4) * 255), 0, 0, 255)` for `0 ≤ i < start`, where `size / 4`
is the float64 quotient and not the integer quarter; it is
`(255, uint8((i - start) / (size - start - 1) * c * 255), 0, 255)` for
`start ≤ i ≤ size - 2`, evaluated from left to right with `c` the double of
`0.77647058823529411764705882352941`; and it is `(0,0,0,255)` for `i = size - 1`. -/
theorem buildPalette64_formula (size : Int) (hsize : 4 ≤ size) :
    ∃ p, buildPalette64 size = .ok p ∧ (p.length : Int) = size ∧
      (∀ i : Int, 0 ≤ i → i < Int.tdiv size 4 - 1 →
        sliceGet p i =
          .ok ⟨uint8 (mul64 (div64 (fl64 (i : ℚ)) (div64 (fl64 (size : ℚ)) 4)) 255),
            0, 0, 255⟩) ∧
      (∀ i : Int, Int.tdiv size 4 - 1 ≤ i → i ≤ size - 2 →
        sliceGet p i =
          .ok ⟨255,
            uint8 (mul64
              (mul64
                (div64 (sub64 (fl64 (i : ℚ)) (fl64 ((Int.tdiv size 4 - 1 : Int) : ℚ)))
                  (sub64 (sub64 (fl64 (size : ℚ)) (fl64 ((Int.tdiv size 4 - 1 : Int) : ℚ))) 1.0))
                orangeFactor64)
              255),
            0, 255⟩) ∧
      sliceGet p (size - 1) = .ok ⟨0, 0, 0, 255⟩ := by
  have hq := tdiv_four size (by omega)
  have hq1 : 1 ≤ size / 4 := by omega
  have hq2 : size / 4 ≤ size := by omega
  have hmake : make (⟨0, 0, 0, 0⟩ : RGBA) size = .ok (List.replicate size.toNat ⟨0, 0, 0, 0⟩) := by
    simp only [make, if_neg (show ¬ size < 0 by omega)]
  have hlen0 : ((List.replicate size.toNat (⟨0, 0, 0, 0⟩ : RGBA)).length : Int) = size := by
    simp only [List.length_replicate]
    omega
  obtain ⟨p1, hp1, hlen1, hget1⟩ := forLoop_sliceSet
    (fun i : Int =>
      (⟨uint8 (mul64 (div64 (fl64 (i : ℚ)) (div64 (fl64 (size : ℚ)) 4)) 255), 0, 0, 255⟩ : RGBA))
    (Int.tdiv size 4) 0 (List.replicate size.toNat ⟨0, 0, 0, 0⟩) (le_refl 0) (by omega)
  obtain ⟨p2, hp2, hlen2, hget2⟩ := forLoop_sliceSet
    (fun i : Int => (⟨255,
        uint8 (mul64
          (mul64
            (div64 (sub64 (fl64 (i : ℚ)) (fl64 ((Int.tdiv size 4 - 1 : Int) : ℚ)))
              (sub64 (sub64 (fl64 (size : ℚ)) (fl64 ((Int.tdiv size 4 - 1 : Int) : ℚ))) 1.0))
            orangeFactor64)
          255), 0, 255⟩ : RGBA))
    (size - 1) (Int.tdiv size 4 - 1) p1 (by omega) (by omega)
  have hlast : 0 ≤ size - 1 ∧ size - 1 < (p2.length : Int) := by omega
  refine ⟨p2.set (size - 1).toNat ⟨0, 0, 0, 255⟩, ?_, ?_, ?_, ?_, ?_⟩
  · have e1 : buildPaletteRed64 size = fun i q => sliceSet q i
        (⟨uint8 (mul64 (div64 (fl64 (i : ℚ)) (div64 (fl64 (size : ℚ)) 4)) 255), 0, 0, 255⟩ :
          RGBA) := rfl
    have e2 : buildPaletteOrange64 size (Int.tdiv size 4 - 1) = fun i q => sliceSet q i
        (⟨255,
          uint8 (mul64
            (mul64
              (div64 (sub64 (fl64 (i : ℚ)) (fl64 ((Int.tdiv size 4 - 1 : Int) : ℚ)))
                (sub64 (sub64 (fl64 (size : ℚ)) (fl64 ((Int.tdiv size 4 - 1 : Int) : ℚ))) 1.0))
              orangeFactor64)
            255), 0, 255⟩ : RGBA) := rfl
    simp only [buildPalette64, hmake, e1, e2, hp1, hp2, bind, Except.bind, pure, Except.pure]
    simp only [sliceSet, if_pos hlast]
  · simp only [List.length_set]
    omega
  · intro j hj0 hj1
    rw [sliceGet_set p2 (size - 1) j _ hlast.1 hlast.2, if_neg (by omega), hget2 j,
      if_neg (by omega), hget1 j, if_pos ⟨hj0, by omega⟩]
  · intro j hj0 hj1
    rw [sliceGet_set p2 (size - 1) j _ hlast.1 hlast.2, if_neg (by omega), hget2 j,
      if_pos ⟨hj0, by omega⟩]
  · rw [sliceGet_set p2 (size - 1) (size - 1) _ hlast.1 hlast.2, if_pos rfl]

/-- Instance of the amended C17 at `size = 200`, the first palette: entry 1 is
`(5,0,0,255)`, entry 124 is `(255,99,0,255)` (the product with the double of the
constant and then with 255 rounds to exactly 99), entry 199 is black. -/
theorem buildPalette64_formula_witness :
    (4 : Int) ≤ 200 ∧
    ∃ p, buildPalette64 200 = .ok p ∧ (p.length : Int) = 200 ∧
      sliceGet p 1 = .ok ⟨5, 0, 0, 255⟩ ∧
      sliceGet p 124 = .ok ⟨255, 99, 0, 255⟩ ∧
      sliceGet p 199 = .ok ⟨0, 0, 0, 255⟩ := by
  have h1 : fl64 0.77647058823529411764705882352941 = (6993825303681241 / 9007199254740992) := by
    rw [fl64_eq _ (-1) (6993825303681241) (by norm_num) (by norm_num [abs_of_pos])
      (by norm_num [abs_of_pos]) (by norm_num) (by norm_num)]
    norm_num
  have h2 : fl64 124 = 124 := by
    rw [fl64_eq _ (6) (8725724278030336) (by norm_num) (by norm_num [abs_of_pos])
      (by norm_num [abs_of_pos]) (by norm_num) (by norm_num)]
    norm_num
  have h3 : fl64 49 = 49 := by
    rw [fl64_eq _ (5) (6896136929411072) (by norm_num) (by norm_num [abs_of_pos])
      (by norm_num [abs_of_pos]) (by norm_num) (by norm_num)]
    norm_num
  have h4 : fl64 200 = 200 := by
    rw [fl64_eq _ (7) (7036874417766400) (by norm_num) (by norm_num [abs_of_pos])
      (by norm_num [abs_of_pos]) (by norm_num) (by norm_num)]
    norm_num
  have h5 : sub64 124 49 = 75 := by
    unfold sub64
    rw [fl64_eq _ (6) (5277655813324800) (by norm_num) (by norm_num [abs_of_pos])
      (by norm_num [abs_of_pos]) (by norm_num) (by norm_num)]
    norm_num
  have h6 : sub64 200 49 = 151 := by
    unfold sub64
    rw [fl64_eq _ (7) (5312840185413632) (by norm_num) (by norm_num [abs_of_pos])
      (by norm_num [abs_of_pos]) (by norm_num) (by norm_num)]
    norm_num
  have h7 : sub64 151 1 = 150 := by
    unfold sub64
    rw [fl64_eq _ (7) (5277655813324800) (by norm_num) (by norm_num [abs_of_pos])
      (by norm_num [abs_of_pos]) (by norm_num) (by norm_num)]
    norm_num
  have h8 : div64 75 150 = (1 / 2) := by
    unfold div64
    rw [fl64_eq _ (-1) (4503599627370496) (by norm_num) (by norm_num [abs_of_pos])
      (by norm_num [abs_of_pos]) (by norm_num) (by norm_num)]
    norm_num
  have h9 : mul64 (1 / 2) (6993825303681241 / 9007199254740992) = (6993825303681241 / 18014398509481984) := by
    unfold mul64
    rw [fl64_eq _ (-2) (6993825303681241) (by norm_num) (by norm_num [abs_of_pos])
      (by norm_num [abs_of_pos]) (by norm_num) (by norm_num)]
    norm_num
  have h10 : mul64 (6993825303681241 / 18014398509481984) 255 = 99 := by
    unfold mul64
    rw [fl64_eq _ (6) (6966505673588736) (by norm_num) (by norm_num [abs_of_pos])
      (by norm_num [abs_of_pos]) (by norm_num) (by norm_num)]
    norm_num
  have h11 : fl64 1 = 1 := by
    rw [fl64_eq _ (0) (4503599627370496) (by norm_num) (by norm_num [abs_of_pos])
      (by norm_num [abs_of_pos]) (by norm_num) (by norm_num)]
    norm_num
  have h12 : div64 200 4 = 50 := by
    unfold div64
    rw [fl64_eq _ (5) (7036874417766400) (by norm_num) (by norm_num [abs_of_pos])
      (by norm_num [abs_of_pos]) (by norm_num) (by norm_num)]
    norm_num
  have h13 : div64 1 50 = (5764607523034235 / 288230376151711744) := by
    unfold div64
    rw [fl64_eq _ (-6) (5764607523034235) (by norm_num) (by norm_num [abs_of_pos])
      (by norm_num [abs_of_pos]) (by norm_num) (by norm_num)]
    norm_num
  have h14 : mul64 (5764607523034235 / 288230376151711744) 255 = (5742089524897383 / 1125899906842624) := by
    unfold mul64
    rw [fl64_eq _ (2) (5742089524897383) (by norm_num) (by norm_num [abs_of_pos])
      (by norm_num [abs_of_pos]) (by norm_num) (by norm_num)]
    norm_num
  have hone : (1.0 : Float64) = 1 := by norm_num
  have hstart : Int.tdiv 200 4 - 1 = 49 := by decide
  have hu99 : uint8 99 = 99 := by
    rw [uint8_eq_floor _ (by norm_num) (by norm_num)]
    have : ⌊(99 : Float64)⌋ = 99 := by
      rw [Int.floor_eq_iff]
      constructor <;> norm_num
    rw [this]
    rfl
  have hu5 : uint8 (5742089524897383 / 1125899906842624) = 5 := by
    rw [uint8_eq_floor _ (by norm_num) (by norm_num)]
    have : ⌊(5742089524897383 / 1125899906842624 : Float64)⌋ = 5 := by
      rw [Int.floor_eq_iff]
      constructor <;> norm_num
    rw [this]
    rfl
  obtain ⟨p, hp, hlen, hred, horange, hlast⟩ := buildPalette64_formula 200 (by decide)
  refine ⟨by decide, p, hp, hlen, ?_, ?_, hlast⟩
  · rw [hred 1 (by decide) (by decide)]
    simp only [Int.cast_ofNat, Int.cast_one, h1, h2, h3, h4, h5, h6, h7, h8, h9, h10, h11, h12, h13, h14, hu5]
  · rw [horange 124 (by decide) (by decide)]
    simp only [hstart, orangeFactor64, hone, Int.cast_ofNat, h1, h2, h3, h4, h5, h6, h7, h8, h9, h10, h11, h12, h13, h14, hu99]

/-- In binary64 too, `buildPalette(17)` stores red 60 at index 1, where the
specification's formula gives 64. -/
theorem buildPalette64_17_red_1 :
    uint8 (mul64 (div64 (fl64 ((1 : Int) : ℚ)) (div64 (fl64 ((17 : Int) : ℚ)) 4)) 255) = 60 := by
  have h1 : fl64 1 = 1 := by
    rw [fl64_eq _ (0) (4503599627370496) (by norm_num) (by norm_num [abs_of_pos])
      (by norm_num [abs_of_pos]) (by norm_num) (by norm_num)]
    norm_num
  have h2 : fl64 17 = 17 := by
    rw [fl64_eq _ (4) (4785074604081152) (by norm_num) (by norm_num [abs_of_pos])
      (by norm_num [abs_of_pos]) (by norm_num) (by norm_num)]
    norm_num
  have h3 : div64 17 4 = (17 / 4) := by
    unfold div64
    rw [fl64_eq _ (2) (4785074604081152) (by norm_num) (by norm_num [abs_of_pos])
      (by norm_num [abs_of_pos]) (by norm_num) (by norm_num)]
    norm_num
  have h4 : div64 1 (17 / 4) = (4238682002231055 / 18014398509481984) := by
    unfold div64
    rw [fl64_eq _ (-3) (8477364004462110) (by norm_num) (by norm_num [abs_of_pos])
      (by norm_num [abs_of_pos]) (by norm_num) (by norm_num)]
    norm_num
  have h5 : mul64 (4238682002231055 / 18014398509481984) 255 = 60 := by
    unfold mul64
    rw [fl64_eq _ (5) (8444249301319680) (by norm_num) (by norm_num [abs_of_pos])
      (by norm_num [abs_of_pos]) (by norm_num) (by norm_num)]
    norm_num
  have hu : uint8 60 = 60 := by
    rw [uint8_eq_floor _ (by norm_num) (by norm_num)]
    have : ⌊(60 : Float64)⌋ = 60 := by
      rw [Int.floor_eq_iff]
      constructor <;> norm_num
    rw [this]
    rfl
  simp only [Int.cast_ofNat, Int.cast_one, h1, h2, h3, h4, h5, hu]

/-- The constant of line 150 and the specification's shorter `0.7764705882352941`
are the same double, `6993825303681241 * 2^-53`. -/
theorem orangeFactor64_eq_spec :
    orangeFactor64 = 6993825303681241 / 9007199254740992 ∧
    fl64 0.7764705882352941 = orangeFactor64 := by
  have h1 : fl64 0.77647058823529411764705882352941 = (6993825303681241 / 9007199254740992) := by
    rw [fl64_eq _ (-1) (6993825303681241) (by norm_num) (by norm_num [abs_of_pos])
      (by norm_num [abs_of_pos]) (by norm_num) (by norm_num)]
    norm_num
  have h2 : fl64 0.7764705882352941 = (6993825303681241 / 9007199254740992) := by
    rw [fl64_eq _ (-1) (6993825303681241) (by norm_num) (by norm_num [abs_of_pos])
      (by norm_num [abs_of_pos]) (by norm_num) (by norm_num)]
    norm_num
  exact ⟨h1, by rw [h2]; exact h1.symm⟩

end Mandelbrot
